import Mathlib

/-
Verification development for the aperture rate-limiting core.

The Go sources under verification are the `proxy` package (RateLimiter.Allow,
getOrCreateLimiter, ExtractRateLimitKey, RateLimitConfig), the `netutil`
package (MaskIP) and the `freebie` package (memStore).  The token bucket
(golang.org/x/time/rate) and the LRU cache (neutrino/cache/lru) are external
dependencies whose sources are not part of the repository; they are modelled
from the specification (sections 3, 4.4 and 4.5), which describes their
observable behaviour.  Time is modelled in integer nanoseconds (Go's
time.Duration unit) and token counts as rationals (the spec's float tokens).
Each Allow call happens at a single instant `now`.
-/

namespace Aperture

/-- One second in nanoseconds (Go's `time.Second`). -/
def nsPerSecond : Int := 1000000000

/-- RateLimitConfig defines a rate limiting rule for a specific path pattern.
The compiled regexp is abstracted as an optional Boolean path predicate
(`none` models a nil `compiledPathRegexp`). -/
structure RateLimitConfig where
  PathRegexp : String
  Requests : Int
  Per : Int
  Burst : Int
  compiledPathRegexp : Option (String → Bool)

/-- Rate returns the requests-per-second value for this configuration:
`float64(r.Requests) / r.Per.Seconds()`, and 0 when `Per == 0`. -/
def RateLimitConfig.Rate (r : RateLimitConfig) : ℚ :=
  if r.Per = 0 then 0 else (r.Requests : ℚ) * (nsPerSecond : ℚ) / (r.Per : ℚ)

/-- EffectiveBurst returns the burst value, defaulting to Requests if Burst
is 0. -/
def RateLimitConfig.EffectiveBurst (r : RateLimitConfig) : Int :=
  if r.Burst = 0 then r.Requests else r.Burst

/-- Matches returns true if the given path matches this rate limit's path
pattern; a nil compiled pattern matches every path. -/
def RateLimitConfig.Matches (r : RateLimitConfig) (path : String) : Bool :=
  match r.compiledPathRegexp with
  | none => true
  | some m => m path

/-- Modelled from the spec: the Token Bucket state of section 3 (the missing
`golang.org/x/time/rate` limiter): refill rate, burst cap, available tokens
(may go negative as debt) and the lazy-refill timestamp. -/
structure Limiter where
  limit : ℚ
  burst : Int
  tokens : ℚ
  last : Int
deriving DecidableEq

/-- Default limiter used only as the out-of-range fallback of `arenaGet`. -/
def defaultLimiter : Limiter := ⟨0, 0, 0, 0⟩

/-- Modelled from the spec: a Reservation is a provisional, cancellable debit:
an OK flag, the advised delay in nanoseconds, and (in place of the Go
pointer to the owning limiter) the arena index of the debited bucket. -/
structure Reservation where
  ok : Bool
  delayNs : ℚ
  idx : Nat
deriving DecidableEq

/-- Modelled from the spec: lazy continuous refill — tokens accumulate as
`elapsed * ratePerSecond` since the last update, clamped to `burst`
(section 4.4 step 1; negative elapsed contributes nothing). -/
def Limiter.advanceTokens (l : Limiter) (now : Int) : ℚ :=
  let elapsed : Int := max 0 (now - l.last)
  min ((l.burst : ℚ)) (l.tokens + l.limit * (elapsed : ℚ) / (nsPerSecond : ℚ))

/-- Modelled from the spec: `reserve()` of section 4.4.  At zero rate the
bucket degenerates to "deny once burst exhausted, no refill" (section 3):
a token is granted while any remains, and once exhausted the reservation is
not OK and can never succeed by waiting.  At positive rate the refill is
credited, one token is debited unconditionally (debt allowed) and the delay
is the time until the debt would have refilled; the reservation is OK
whenever the burst admits one token. -/
def Limiter.reserve (l : Limiter) (now : Int) : (Bool × ℚ) × Limiter :=
  if l.limit = 0 then
    if 1 ≤ l.tokens then ((true, 0), { l with tokens := l.tokens - 1 })
    else ((false, 0), l)
  else
    let tokens := l.advanceTokens now - 1
    let delay : ℚ := if tokens < 0 then -tokens * (nsPerSecond : ℚ) / l.limit else 0
    if 1 ≤ l.burst then ((true, delay), { l with tokens := tokens, last := now })
    else ((false, delay), l)

/-- Modelled from the spec: `cancel` credits back exactly the one debited
token against the bucket's current state, clamped to the burst cap
(section 4.4).  Only OK reservations debited anything. -/
def Limiter.cancelReservation (l : Limiter) : Limiter :=
  { l with tokens := min ((l.burst : ℚ)) (l.tokens + 1) }

/-- Modelled from the spec: the counterfactual bucket update of a call that
"reserved nothing" — the lazy refill still happens (the bucket is observed)
but no token is debited.  Used as the refinement target for the rollback
claim. -/
def Limiter.observe (l : Limiter) (now : Int) : Limiter :=
  if l.limit = 0 then l
  else { l with tokens := l.advanceTokens now, last := now }

/-- Newly created buckets start full at the rule's effective burst
(spec section 4.6 step 1). -/
def newLimiter (cfg : RateLimitConfig) (now : Int) : Limiter :=
  { limit := cfg.Rate, burst := cfg.EffectiveBurst,
    tokens := (cfg.EffectiveBurst : ℚ), last := now }

/-- limiterKey is the composite cache key: client key plus the rule's path
pattern text. -/
structure limiterKey where
  clientKey : String
  pathPattern : String
deriving DecidableEq

/-- Modelled from the spec: LRU lookup (section 4.5) — the resident arena
index for a key, if any.  The list is ordered most-recently-used first. -/
def lruGetEntry (cache : List (limiterKey × Nat)) (k : limiterKey) : Option Nat :=
  (cache.find? (fun e => decide (e.1 = k))).map (fun e => e.2)

/-- Remove the entry of a key from the recency list. -/
def removeKey (cache : List (limiterKey × Nat)) (k : limiterKey) : List (limiterKey × Nat) :=
  cache.filter (fun e => decide (e.1 ≠ k))

/-- Modelled from the spec: LRU insertion (section 4.5) — the fresh entry
becomes most-recently-used and entries are evicted from the
least-recently-used end until the capacity is respected; the Boolean
reports whether anything was evicted. -/
def lruPut (cache : List (limiterKey × Nat)) (k : limiterKey) (v : Nat) (cap : Nat) :
    Bool × List (limiterKey × Nat) :=
  let c := (k, v) :: removeKey cache k
  (decide (cap < c.length), c.take cap)

/-- RateLimiter state: the configured rules, the LRU recency list mapping
keys to arena indices, the arena of bucket states (modelling the Go heap:
reservations keep their bucket index even after cache eviction), and the
maximum cache size. -/
structure RateLimiter where
  configs : List RateLimitConfig
  cache : List (limiterKey × Nat)
  arena : List Limiter
  maxSize : Nat

/-- DefaultMaxCacheSize is the default maximum number of rate limiter
entries to keep in the LRU cache. -/
def DefaultMaxCacheSize : Nat := 10000

/-- NewRateLimiter creates a new RateLimiter with the given configurations;
the optional size stands for the WithMaxCacheSize functional option. -/
def NewRateLimiter (configs : List RateLimitConfig) (size : Option Nat) : RateLimiter :=
  { configs := configs, cache := [], arena := [],
    maxSize := size.getD DefaultMaxCacheSize }

/-- Read a bucket out of the arena (a Go pointer dereference). -/
def arenaGet (arena : List Limiter) (i : Nat) : Limiter :=
  arena.getD i defaultLimiter

/-- getOrCreateLimiter retrieves an existing limiter (refreshing its LRU
recency) or creates a new one, inserting it with possible eviction (the
Go `if entry, err := rl.cache.Get(key); err == nil` dispatch, written with
`Option.elim`). -/
def getOrCreateLimiter (rl : RateLimiter) (key : limiterKey) (cfg : RateLimitConfig)
    (now : Int) : Nat × RateLimiter :=
  (lruGetEntry rl.cache key).elim
    (rl.arena.length,
     { rl with
         cache := (lruPut rl.cache key rl.arena.length rl.maxSize).2,
         arena := rl.arena ++ [newLimiter cfg now] })
    (fun idx => (idx, { rl with cache := (key, idx) :: removeKey rl.cache key }))

/-- Repeated get-or-insert of a list of keys (used to state the capacity
property: inserting K distinct keys into a cache of capacity C). -/
def insertKeys (rl : RateLimiter) (ks : List limiterKey) (cfg : RateLimitConfig)
    (now : Int) : RateLimiter :=
  ks.foldl (fun s k => (getOrCreateLimiter s k cfg now).2) rl

/-- One iteration of the collection loop of Allow: if the rule matches, fetch
or create its bucket and take a provisional reservation. -/
def reserveStep (key path : String) (now : Int)
    (acc : List Reservation × RateLimiter) (cfg : RateLimitConfig) :
    List Reservation × RateLimiter :=
  if cfg.Matches path then
    let cacheKey : limiterKey := ⟨key, cfg.PathRegexp⟩
    let s := getOrCreateLimiter acc.2 cacheKey cfg now
    let res := (arenaGet s.2.arena s.1).reserve now
    (acc.1 ++ [⟨res.1.1, res.1.2, s.1⟩], { s.2 with arena := s.2.arena.set s.1 res.2 })
  else acc

/-- Collect all matching configs and their reservations (first phase of
Allow). -/
def collectReservations (rl : RateLimiter) (path key : String) (now : Int) :
    List Reservation × RateLimiter :=
  rl.configs.foldl (reserveStep key path now) ([], rl)

/-- Scan of the collected reservations: mirrors the Go loop, which on the
first not-OK reservation overwrites the accumulated wait with the fixed
one-second fallback and breaks, and otherwise accumulates the maximum
positive delay. -/
def scanReservations : List Reservation → Bool → ℚ → Bool × ℚ
  | [], allAllowed, maxWait => (allAllowed, maxWait)
  | r :: rest, allAllowed, maxWait =>
      if r.ok = false then (false, (nsPerSecond : ℚ))
      else if 0 < r.delayNs then scanReservations rest false (max maxWait r.delayNs)
      else scanReservations rest allAllowed maxWait

/-- Cancel every collected reservation in order (denial path of Allow). -/
def cancelAll (arena : List Limiter) : List Reservation → List Limiter
  | [] => arena
  | r :: rest =>
      cancelAll
        (if r.ok then arena.set r.idx ((arenaGet arena r.idx).cancelReservation)
         else arena) rest

/-- Allow checks if a request should be allowed based on all matching rate
limits; returns ((allowed, retryAfter), new state). -/
def RateLimiter.Allow (rl : RateLimiter) (path key : String) (now : Int) :
    (Bool × ℚ) × RateLimiter :=
  let col := collectReservations rl path key now
  if col.1.length = 0 then ((true, 0), col.2)
  else
    let scan := scanReservations col.1 true 0
    if scan.1 then ((true, 0), col.2)
    else ((false, scan.2), { col.2 with arena := cancelAll col.2.arena col.1 })

/-- Size returns the current number of entries in the cache. -/
def RateLimiter.Size (rl : RateLimiter) : Nat :=
  rl.cache.length

/-- One iteration of the counterfactual run that performs the same matching
and cache traffic as Allow but reserves nothing (refill only). -/
def observeStep (key path : String) (now : Int) (rl : RateLimiter)
    (cfg : RateLimitConfig) : RateLimiter :=
  if cfg.Matches path then
    let cacheKey : limiterKey := ⟨key, cfg.PathRegexp⟩
    let s := getOrCreateLimiter rl cacheKey cfg now
    { s.2 with arena := s.2.arena.set s.1 ((arenaGet s.2.arena s.1).observe now) }
  else rl

/-- Modelled from the spec: the state a call would have produced had it
"reserved nothing" — the refinement target for the rollback property. -/
def observeRun (rl : RateLimiter) (path key : String) (now : Int) : RateLimiter :=
  rl.configs.foldl (observeStep key path now) rl

/-- Run a sequence of Allow calls for one client and path at the given
times, collecting the (permitted, retryAfter) results. -/
def runCalls (rl : RateLimiter) (path key : String) : List Int → List (Bool × ℚ) × RateLimiter
  | [] => ([], rl)
  | t :: ts =>
      let r := rl.Allow path key t
      let rest := runCalls r.2 path key ts
      (r.1 :: rest.1, rest.2)

/-- Tokens available to a reservation taken at time `t`: the refilled count
at positive rate, the raw count at zero rate (no refill ever happens). -/
def availAt (l : Limiter) (t : Int) : ℚ :=
  if l.limit = 0 then l.tokens else l.advanceTokens t

/-- Number of OK reservations debiting a given arena index. -/
def okCount (rs : List Reservation) (i : Nat) : Nat :=
  (rs.filter (fun r => r.ok && decide (r.idx = i))).length

/-- Simulation relation between a bucket of the collect phase and the same
bucket of the counterfactual no-debit run: identical except that the
collect bucket owes `k` provisional debits; a debited positive-rate bucket
has its refill timestamp parked at the call instant. -/
def bucketSim (now : Int) (k : Nat) (a b : Limiter) : Prop :=
  a.limit = b.limit ∧ a.burst = b.burst ∧ a.last = b.last ∧
  b.tokens ≤ (b.burst : ℚ) ∧ 1 ≤ b.burst ∧
  a.tokens = b.tokens - (k : ℚ) ∧
  (k ≠ 0 → b.limit ≠ 0 → b.last = now)

/-- Pointwise simulation of the two arenas, the debit count of each bucket
being the number of OK reservations on its index. -/
def arenaSim (now : Int) (rs : List Reservation) (ac ao : List Limiter) : Prop :=
  ac.length = ao.length ∧
  ∀ i, i < ac.length → bucketSim now (okCount rs i) (arenaGet ac i) (arenaGet ao i)

/-- Modelled from the spec: "the maximum of the delays across all denying
reservations", a not-OK reservation contributing the fixed 1-second
fallback. -/
def specMaxWait (rs : List Reservation) : ℚ :=
  rs.foldl
    (fun acc r =>
      if r.ok then (if 0 < r.delayNs then max acc r.delayNs else acc)
      else max acc ((nsPerSecond : ℚ))) 0

/-- Well-formedness of a limiter state: every bucket respects its burst cap
and has a positive cap (the spec's data model requires `burst ≥ 1`), every
cached index points into the arena, and every configured rule has a
positive effective burst. -/
def RateLimiter.WF (rl : RateLimiter) : Prop :=
  (∀ l ∈ rl.arena, l.tokens ≤ (l.burst : ℚ) ∧ 1 ≤ l.burst) ∧
  (∀ e ∈ rl.cache, e.2 < rl.arena.length) ∧
  (∀ cfg ∈ rl.configs, 1 ≤ cfg.EffectiveBurst)

/-- An IP address is a list of bytes: length 4 for IPv4, length 16 for IPv6
(Go's `net.IP`). -/
abbrev IPAddr := List Nat

/-- ipv4Mask24 masks IPv4 addresses to /24 (`net.CIDRMask(24, 32)`). -/
def ipv4Mask24 : IPAddr := [255, 255, 255, 0]

/-- ipv6Mask48 masks IPv6 addresses to /48 (`net.CIDRMask(48, 128)`). -/
def ipv6Mask48 : IPAddr :=
  [255, 255, 255, 255, 255, 255, 0, 0, 0, 0, 0, 0, 0, 0, 0, 0]

/-- Bytes 10 and 11 of the IPv4-in-IPv6 marker: `To4` recognizes a 16-byte
address as IPv4 when bytes 0..9 are zero and bytes 10 and 11 are 0xff. -/
def isV4InV6 (ip : IPAddr) : Bool :=
  (ip.take 10).all (fun b => decide (b = 0)) &&
    decide (ip.getD 10 0 = 255) && decide (ip.getD 11 0 = 255)

/-- To4 converts an address to its 4-byte representation; `none` models the
nil result for addresses that are not IPv4. -/
def to4 (ip : IPAddr) : Option IPAddr :=
  if ip.length = 4 then some ip
  else if ip.length = 16 ∧ isV4InV6 ip then some (ip.drop 12)
  else none

/-- Mask applies a network mask byte by byte (`net.IP.Mask`); a length
mismatch yields nil, modelled as the empty list. -/
def maskBytes (ip mask : IPAddr) : IPAddr :=
  if ip.length = mask.length then ip.zipWith (fun a b => a &&& b) mask else []

/-- MaskIP returns a masked version of the IP address for grouping purposes:
IPv4 addresses are masked to /24 (zeroing the last octet), IPv6 addresses
to /48. -/
def MaskIP (ip : IPAddr) : IPAddr :=
  match to4 ip with
  | some ip4 => maskBytes ip4 ipv4Mask24
  | none => maskBytes ip ipv6Mask48

/-- ExtractRateLimitKey extracts the rate-limiting key from a request.  The
outcome of the external L402 header parse and identifier decode is modelled
as an optional token identifier (`none` covers an absent header, a parse
error or a decode error), and Go's `net.IP.String` rendering as an abstract
`render` function.  Only authenticated requests may use the token branch;
everything else falls back to the masked client IP. -/
def ExtractRateLimitKey (render : IPAddr → String) (l402TokenID : Option String)
    (authenticated : Bool) (remoteIP : IPAddr) : String :=
  if authenticated then
    match l402TokenID with
    | some tokenID => "token:" ++ tokenID
    | none => "ip:" ++ render (MaskIP remoteIP)
  else "ip:" ++ render (MaskIP remoteIP)

/-- Rate-limit denial response, keeping the fields the tests observe: the
transport status code, the Retry-After value in whole seconds, the gRPC
application status and message headers, and the body. -/
structure RateLimitResponse where
  statusCode : Int
  retryAfterSeconds : Int
  grpcStatus : Option Int
  grpcMessage : Option String
  body : String
deriving DecidableEq

/-- Ceiling division of a nanosecond duration into whole seconds. -/
def ceilSeconds (ns : Int) : Int :=
  (ns + (nsPerSecond - 1)) / nsPerSecond

/-- Modelled from the spec: `sendRateLimitResponse` (its Go source is not in
the repository; only its tests are).  The advised wait is rounded up to
whole seconds; a plain HTTP denial carries status 429 with a Retry-After
header and a textual body, while a gRPC denial keeps transport status 200
and carries ResourceExhausted (code 8) with the same Retry-After value. -/
def sendRateLimitResponse (isGRPC : Bool) (retryAfterNs : Int) : RateLimitResponse :=
  let secs := ceilSeconds retryAfterNs
  if isGRPC then
    { statusCode := 200, retryAfterSeconds := secs, grpcStatus := some 8,
      grpcMessage := some ("rate limit exceeded"), body := "" }
  else
    { statusCode := 429, retryAfterSeconds := secs, grpcStatus := none,
      grpcMessage := none, body := "rate limit exceeded" }

/-- Count is the freebie counter type, a 16-bit unsigned integer in Go
(`type Count uint16`); modelled as a natural number below `countModulus`. -/
abbrev Count := Nat

/-- Modulus of the `uint16` freebie counter. -/
def countModulus : Nat := 65536

/-- memStore is the in-memory freebie store: the allowance and the per-key
counters (a Go map modelled as an association list, newest entry first). -/
structure memStore where
  numFreebies : Count
  freebieCounter : List (String × Count)

/-- getKey masks the IP and renders it (`netutil.MaskIP(ip).String()`); the
rendering of `net.IP.String` is abstracted as `render`. -/
def memStore.getKey (render : IPAddr → String) (ip : IPAddr) : String :=
  render (MaskIP ip)

/-- Map update for the freebie counter. -/
def setCount (l : List (String × Count)) (k : String) (v : Count) :
    List (String × Count) :=
  (k, v) :: l.filter (fun e => decide (e.1 ≠ k))

/-- currentCount looks up the stored tally for a key, defaulting to 0. -/
def memStore.currentCount (m : memStore) (k : String) : Count :=
  match (m.freebieCounter.find? (fun e => decide (e.1 = k))).map (fun e => e.2) with
  | none => 0
  | some c => c

/-- CanPass reports whether the client still has freebies left; the error is
always nil. -/
def memStore.CanPass (m : memStore) (render : IPAddr → String) (ip : IPAddr) :
    Bool × Option String :=
  (decide (m.currentCount (memStore.getKey render ip) < m.numFreebies), none)

/-- TallyFreebie increments the client's tally (wrapping 16-bit addition) and
always returns (true, nil). -/
def memStore.TallyFreebie (m : memStore) (render : IPAddr → String) (ip : IPAddr) :
    (Bool × Option String) × memStore :=
  let k := memStore.getKey render ip
  let counter := (m.currentCount k + 1) % countModulus
  ((true, none), { m with freebieCounter := setCount m.freebieCounter k counter })

/-- NewMemIPMaskStore creates a new in-memory freebie store. -/
def NewMemIPMaskStore (numFreebies : Count) : memStore :=
  { numFreebies := numFreebies, freebieCounter := [] }

/-- Concrete fixture: a slow rule, one request per hour with burst one,
matching every path. -/
def cfgSlow : RateLimitConfig := ⟨"", 1, 3600000000000, 1, none⟩

/-- Concrete fixture: a degenerate zero-window rule matching every path. -/
def cfgZero : RateLimitConfig := ⟨"zero", 1, 0, 1, none⟩

/-- Concrete fixture: the limiter state after one permitted call with both
fixture rules — the slow bucket and the zero-rate bucket are both empty. -/
def c2State : RateLimiter :=
  (RateLimiter.Allow (NewRateLimiter [cfgSlow, cfgZero] none) "/x" "k" 0).2

/-- Applying the all-ones mask byte keeps any byte value. -/
lemma byte_land_ff (b : Nat) (hb : b < 256) : b &&& 255 = b := by
  have h := Nat.and_pow_two_sub_one_eq_mod b 8
  simp at h
  rw [h]
  exact Nat.mod_eq_of_lt hb

/-- Applying the zero mask byte clears any byte value. -/
lemma byte_land_zero (b : Nat) : b &&& 0 = 0 := by simp

lemma zipWith_land_replicate_zero (ip : IPAddr) :
    List.zipWith (fun a b => a &&& b) ip (List.replicate ip.length 0) =
      List.replicate ip.length 0 := by
  induction ip with
  | nil => rfl
  | cons b t ih =>
      simp only [List.length_cons, List.replicate_succ, List.zipWith_cons_cons,
        List.cons.injEq]
      exact ⟨byte_land_zero b, ih⟩

lemma zipWith_land_split (m : Nat) :
    ∀ (ip : IPAddr) (k : Nat), ip.length = m + k → (∀ b ∈ ip, b < 256) →
      List.zipWith (fun a b => a &&& b) ip
          (List.replicate m 255 ++ List.replicate k 0) =
        ip.take m ++ List.replicate k 0 := by
  induction m with
  | zero =>
      intro ip k hlen hb
      have hk : ip.length = k := by omega
      simp only [List.replicate, List.nil_append, List.take_zero]
      rw [← hk]
      exact zipWith_land_replicate_zero ip
  | succ m ih =>
      intro ip k hlen hb
      cases ip with
      | nil => simp at hlen; omega
      | cons b t =>
          simp only [List.length_cons] at hlen
          simp only [List.replicate_succ, List.cons_append, List.zipWith_cons_cons,
            List.take_succ_cons, List.cons.injEq]
          refine ⟨byte_land_ff b (hb b (by simp)), ?_⟩
          exact ih t k (by omega) (fun x hx => hb x (by simp [hx]))

lemma ipv4Mask24_eq : ipv4Mask24 = List.replicate 3 255 ++ List.replicate 1 0 := by
  decide

lemma ipv6Mask48_eq : ipv6Mask48 = List.replicate 6 255 ++ List.replicate 10 0 := by
  decide

/-- MaskIP on a 4-byte IPv4 address keeps the first three octets and zeroes
the last. -/
lemma maskIP_v4 (ip : IPAddr) (hlen : ip.length = 4) (hb : ∀ b ∈ ip, b < 256) :
    MaskIP ip = ip.take 3 ++ [0] := by
  have h24 : List.replicate 3 (255 : Nat) ++ List.replicate 1 0 =
      [255, 255, 255, 0] := by decide
  have := zipWith_land_split 3 ip 1 (by omega) hb
  rw [h24] at this
  simp [MaskIP, to4, hlen, maskBytes, ipv4Mask24, this]

/-- MaskIP on a 16-byte, non-IPv4-mapped address keeps the first six bytes
(48 bits) and zeroes the rest. -/
lemma maskIP_v6 (ip : IPAddr) (hlen : ip.length = 16) (hmap : isV4InV6 ip = false)
    (hb : ∀ b ∈ ip, b < 256) :
    MaskIP ip = ip.take 6 ++ List.replicate 10 0 := by
  have := zipWith_land_split 6 ip 10 (by omega) hb
  rw [← ipv6Mask48_eq] at this
  simp [MaskIP, to4, hlen, hmap, maskBytes, ipv6Mask48, this]
  simpa [ipv6Mask48] using this

lemma take_append_inj (x y t : IPAddr) (n : Nat)
    (h : x.take n ++ t = y.take n ++ t) : x.take n = y.take n := by
  have hlen : (x.take n).length = (y.take n).length := by
    have h2 := congrArg List.length h
    simp only [List.length_append] at h2
    omega
  exact (List.append_inj h hlen).1

/-- C8: MaskIP zeroes the last octet of a 4-byte IPv4 address and everything
after the first 48 bits of a 16-byte IPv6 address; consequently two IPv4
addresses mask identically exactly when they share their first three
octets, and two (non-IPv4-mapped) IPv6 addresses mask identically exactly
when they share their top 48 bits. -/
theorem maskIP_spec (x y : IPAddr)
    (hx4 : x.length = 4) (hy4 : y.length = 4)
    (hbx : ∀ b ∈ x, b < 256) (hby : ∀ b ∈ y, b < 256)
    (u v : IPAddr) (hu : u.length = 16) (hv : v.length = 16)
    (humap : isV4InV6 u = false) (hvmap : isV4InV6 v = false)
    (hbu : ∀ b ∈ u, b < 256) (hbv : ∀ b ∈ v, b < 256) :
    MaskIP x = x.take 3 ++ [0] ∧
    MaskIP u = u.take 6 ++ List.replicate 10 0 ∧
    (MaskIP x = MaskIP y ↔ x.take 3 = y.take 3) ∧
    (MaskIP u = MaskIP v ↔ u.take 6 = v.take 6) := by
  refine ⟨maskIP_v4 x hx4 hbx, maskIP_v6 u hu humap hbu, ?_, ?_⟩
  · rw [maskIP_v4 x hx4 hbx, maskIP_v4 y hy4 hby]
    constructor
    · intro h; exact take_append_inj x y [0] 3 h
    · intro h; rw [h]
  · rw [maskIP_v6 u hu humap hbu, maskIP_v6 v hv hvmap hbv]
    constructor
    · intro h; exact take_append_inj u v (List.replicate 10 0) 6 h
    · intro h; rw [h]

/-- C8 witness: concrete evaluation on the addresses of the repository's
tests (192.168.1.123 and 192.168.1.255 agree; 2001:db8:1234:5678:… masks to
2001:db8:1234::). -/
theorem maskIP_spec_witness :
    MaskIP [192, 168, 1, 123] = [192, 168, 1, 0] ∧
    MaskIP [32, 1, 13, 184, 18, 52, 86, 120, 154, 188, 222, 240, 18, 52, 86, 120] =
      [32, 1, 13, 184, 18, 52, 0, 0, 0, 0, 0, 0, 0, 0, 0, 0] ∧
    (MaskIP [192, 168, 1, 123] = MaskIP [192, 168, 1, 255] ↔
      List.take 3 [192, 168, 1, 123] = List.take 3 [192, 168, 1, 255]) := by
  have h := maskIP_spec [192, 168, 1, 123] [192, 168, 1, 255]
    (by decide) (by decide) (by decide) (by decide)
    [32, 1, 13, 184, 18, 52, 86, 120, 154, 188, 222, 240, 18, 52, 86, 120]
    [32, 1, 13, 184, 18, 52, 86, 120, 154, 188, 222, 240, 18, 52, 86, 120]
    (by decide) (by decide) (by decide) (by decide) (by decide) (by decide)
  refine ⟨by decide, by decide, h.2.2.1⟩

lemma currentCount_setCount_self (n : Count) (l : List (String × Count))
    (k : String) (v : Count) :
    memStore.currentCount ⟨n, setCount l k v⟩ k = v := by
  simp [memStore.currentCount, setCount, List.find?]

lemma tally_currentCount (m : memStore) (render : IPAddr → String) (ip : IPAddr) :
    ((m.TallyFreebie render ip).2).currentCount (memStore.getKey render ip) =
      (m.currentCount (memStore.getKey render ip) + 1) % countModulus := by
  simp [memStore.TallyFreebie, currentCount_setCount_self]

lemma tally_iterate (render : IPAddr → String) (ip : IPAddr) (num : Count) :
    ∀ n : Nat,
      (((fun m : memStore => (m.TallyFreebie render ip).2))^[n]
          (NewMemIPMaskStore num)).currentCount (memStore.getKey render ip) =
        n % countModulus := by
  intro n
  induction n with
  | zero =>
      simp [NewMemIPMaskStore, memStore.currentCount]
  | succ n ih =>
      rw [Function.iterate_succ_apply', tally_currentCount, ih]
      exact Nat.mod_add_mod n countModulus 1

/-- C10: the freebie counter is 16-bit (modulus 2^16); TallyFreebie stores
the incremented tally modulo 2^16 under the masked-IP key and always
returns (true, nil); CanPass returns (count < numFreebies, nil); and after
exactly 65536 tallies a fresh client's count wraps back to 0, so CanPass
is true again whenever at least one freebie is configured. -/
theorem freebie_count_wraps (m : memStore) (render : IPAddr → String) (ip : IPAddr)
    (num : Count) (hnum : 1 ≤ num) :
    countModulus = 2 ^ 16 ∧
    (m.TallyFreebie render ip).1 = (true, none) ∧
    ((m.TallyFreebie render ip).2).currentCount (memStore.getKey render ip) =
      (m.currentCount (memStore.getKey render ip) + 1) % countModulus ∧
    m.CanPass render ip =
      (decide (m.currentCount (memStore.getKey render ip) < m.numFreebies), none) ∧
    (((fun s : memStore => (s.TallyFreebie render ip).2))^[countModulus]
        (NewMemIPMaskStore num)).currentCount (memStore.getKey render ip) = 0 ∧
    (((fun s : memStore => (s.TallyFreebie render ip).2))^[countModulus]
        (NewMemIPMaskStore num)).CanPass render ip = (true, none) := by
  have hwrap := tally_iterate render ip num countModulus
  have hzero : countModulus % countModulus = 0 := Nat.mod_self countModulus
  refine ⟨by decide, rfl, tally_currentCount m render ip, rfl, ?_, ?_⟩
  · rw [hwrap, hzero]
  · have hn : (((fun s : memStore => (s.TallyFreebie render ip).2))^[countModulus]
        (NewMemIPMaskStore num)).numFreebies = num := by
      clear hwrap hzero
      induction countModulus with
      | zero => rfl
      | succ n ih =>
          rw [Function.iterate_succ_apply']
          simpa [memStore.TallyFreebie] using ih
    have h0 : 0 < num := hnum
    simp [memStore.CanPass, hwrap, hzero, hn, h0]

/-- C10 witness: a concrete instantiation of the freebie theorem at a fixed
store, rendering function and address. -/
theorem freebie_count_wraps_witness :
    (1 ≤ 1 ∧ countModulus = 2 ^ 16) ∧
    ((NewMemIPMaskStore 1).TallyFreebie (fun _ => "a") [10, 0, 0, 1]).1 =
      (true, none) := by
  have h := freebie_count_wraps (NewMemIPMaskStore 1) (fun _ => "a")
    [10, 0, 0, 1] 1 (by decide)
  exact ⟨⟨by decide, h.1⟩, h.2.1⟩

/-- A zero-window configuration has rate zero (`Rate()` guards `Per == 0`). -/
lemma rate_zero_of_per_zero (cfg : RateLimitConfig) (h : cfg.Per = 0) :
    cfg.Rate = 0 := by
  simp [RateLimitConfig.Rate, h]

/-- C5: a rule with `Per = 0` has `Rate() = 0`, and once the zero-rate
bucket's burst is exhausted (fewer than one token left), a matching Allow
call is denied with a not-OK reservation and an advised wait of exactly one
second, and it leaves the whole limiter state unchanged — no refill ever
happens, so every subsequent call at any later time is denied the same
way. -/
theorem zero_rate_denies_forever (cfg : RateLimitConfig) (ck path : String)
    (now last B : Int) (toks : ℚ) (M : Nat)
    (hmatch : cfg.Matches path = true) (htoks : toks < 1) :
    (cfg.Per = 0 → cfg.Rate = 0) ∧
    (collectReservations ⟨[cfg], [(⟨ck, cfg.PathRegexp⟩, 0)], [⟨0, B, toks, last⟩], M⟩
        path ck now).1 = [⟨false, 0, 0⟩] ∧
    RateLimiter.Allow ⟨[cfg], [(⟨ck, cfg.PathRegexp⟩, 0)], [⟨0, B, toks, last⟩], M⟩
        path ck now
      = ((false, (nsPerSecond : ℚ)),
         ⟨[cfg], [(⟨ck, cfg.PathRegexp⟩, 0)], [⟨0, B, toks, last⟩], M⟩) := by
  have hnot : ¬ (1 ≤ toks) := not_le.mpr htoks
  have hcol : collectReservations
      ⟨[cfg], [(⟨ck, cfg.PathRegexp⟩, 0)], [⟨0, B, toks, last⟩], M⟩ path ck now
      = ([⟨false, 0, 0⟩],
         ⟨[cfg], [(⟨ck, cfg.PathRegexp⟩, 0)], [⟨0, B, toks, last⟩], M⟩) := by
    simp [collectReservations, reserveStep, hmatch, getOrCreateLimiter, lruGetEntry,
      removeKey, arenaGet, Limiter.reserve, hnot]
  refine ⟨rate_zero_of_per_zero cfg, by rw [hcol], ?_⟩
  simp [RateLimiter.Allow, hcol, scanReservations, cancelAll]

/-- C5 witness: the concrete zero-window rule `{requests = 10, per = 0,
burst = 1}` with an exhausted bucket is denied with exactly one second of
advised wait at time 7, leaving the state unchanged. -/
theorem zero_rate_denies_forever_witness :
    RateLimitConfig.Matches ⟨"z", 10, 0, 1, none⟩ "/x" = true ∧
    (0 : ℚ) < 1 ∧
    RateLimiter.Allow
        ⟨[⟨"z", 10, 0, 1, none⟩], [(⟨"k", "z"⟩, 0)], [⟨0, 1, 0, 0⟩], 5⟩ "/x" "k" 7
      = ((false, (nsPerSecond : ℚ)),
         ⟨[⟨"z", 10, 0, 1, none⟩], [(⟨"k", "z"⟩, 0)], [⟨0, 1, 0, 0⟩], 5⟩) := by
  have h := zero_rate_denies_forever ⟨"z", 10, 0, 1, none⟩ "k" "/x" 7 0 1 0 5
    rfl (by norm_num)
  exact ⟨rfl, by norm_num, h.2.2⟩

/-- C7: the Retry-After value is the advised wait rounded up to whole
seconds (never truncated down): the rendered value `s` satisfies
`s - 1 < ns/second ≤ s`; a positive sub-second wait such as 500ms renders
as 1 and 1100ms renders as 2; and the plain-HTTP denial (status 429) and
the streaming-RPC denial (transport status 200, application status 8)
carry the same rounded-up value. -/
theorem retry_after_rounds_up (ns : Int) (hpos : 0 < ns) :
    (sendRateLimitResponse false ns).statusCode = 429 ∧
    (sendRateLimitResponse true ns).statusCode = 200 ∧
    (sendRateLimitResponse true ns).grpcStatus = some 8 ∧
    (sendRateLimitResponse true ns).retryAfterSeconds =
      (sendRateLimitResponse false ns).retryAfterSeconds ∧
    nsPerSecond * ((sendRateLimitResponse false ns).retryAfterSeconds - 1) < ns ∧
    ns ≤ nsPerSecond * (sendRateLimitResponse false ns).retryAfterSeconds ∧
    (sendRateLimitResponse false 500000000).retryAfterSeconds = 1 ∧
    (sendRateLimitResponse false 1100000000).retryAfterSeconds = 2 ∧
    (sendRateLimitResponse true 1100000000).retryAfterSeconds = 2 := by
  have hra : (sendRateLimitResponse false ns).retryAfterSeconds = ceilSeconds ns := rfl
  refine ⟨rfl, rfl, rfl, rfl, ?_, ?_, by decide, by decide, by decide⟩
  · rw [hra]
    simp only [ceilSeconds, nsPerSecond]
    omega
  · rw [hra]
    simp only [ceilSeconds, nsPerSecond]
    omega

/-- C7 witness: the rounding theorem evaluated at the 500-millisecond wait
of the repository's sub-second test. -/
theorem retry_after_rounds_up_witness :
    (0 : Int) < 500000000 ∧
    (sendRateLimitResponse false 500000000).retryAfterSeconds = 1 ∧
    (sendRateLimitResponse true 500000000).retryAfterSeconds = 1 ∧
    (sendRateLimitResponse false 500000000).statusCode = 429 ∧
    (sendRateLimitResponse true 500000000).statusCode = 200 := by
  have h := retry_after_rounds_up 500000000 (by decide)
  exact ⟨by decide, h.2.2.2.2.2.2.1, by rw [h.2.2.2.1, h.2.2.2.2.2.2.1], h.1, h.2.1⟩

/-- Keys of the token branch and of the IP branch can never collide. -/
lemma token_key_ne_ip_key (a b : String) : ("token:" ++ a) ≠ ("ip:" ++ b) := by
  intro h
  have h2 := congrArg String.data h
  simp only [String.data_append] at h2
  simp at h2

/-- C6: ExtractRateLimitKey returns the token key exactly when the request
is authenticated and the L402 identifier decodes; in every other case
(unauthenticated, or missing/undecodable credential) it returns the
masked-IP key.  The function is total, so no error or panic reaches the
caller. -/
theorem extract_key_spec (render : IPAddr → String) (tok : Option String)
    (auth : Bool) (ip : IPAddr) (id : String) :
    (ExtractRateLimitKey render tok auth ip = "token:" ++ id ↔
      auth = true ∧ tok = some id) ∧
    (auth = false ∨ tok = none →
      ExtractRateLimitKey render tok auth ip = "ip:" ++ render (MaskIP ip)) := by
  constructor
  · constructor
    · intro h
      cases auth with
      | false => exact absurd h.symm (token_key_ne_ip_key id (render (MaskIP ip)))
      | true =>
          cases tok with
          | none => exact absurd h.symm (token_key_ne_ip_key id (render (MaskIP ip)))
          | some t =>
              refine ⟨rfl, ?_⟩
              have ht : t = id := by
                have h2 := congrArg String.data h
                simp only [ExtractRateLimitKey, String.data_append] at h2
                have h3 : String.data t = String.data id := by
                  simpa using h2
                exact congrArg String.mk h3
              rw [ht]
    · rintro ⟨ha, ht⟩
      subst ha; subst ht
      rfl
  · rintro (ha | ht)
    · subst ha; rfl
    · subst ht
      cases auth <;> rfl

/-- C6 witness: concrete evaluations — an authenticated request with a
decoded identifier uses the token key, and an unauthenticated request falls
back to the masked IP. -/
theorem extract_key_spec_witness :
    (ExtractRateLimitKey (fun _ => "1.2.3.0") (some ("abc")) true [1, 2, 3, 4] =
        "token:" ++ "abc" ↔ true = true ∧ (some ("abc") : Option String) = some ("abc")) ∧
    ExtractRateLimitKey (fun _ => "1.2.3.0") (some ("abc")) false [1, 2, 3, 4] =
      "ip:" ++ "1.2.3.0" := by
  have h := extract_key_spec (fun _ => "1.2.3.0") (some ("abc")) true [1, 2, 3, 4] "abc"
  have h2 := extract_key_spec (fun _ => "1.2.3.0") (some ("abc")) false [1, 2, 3, 4] "abc"
  exact ⟨h.1, h2.2 (Or.inl rfl)⟩

/-- Scanning a reservation list that contains a not-OK reservation always
lands in the fixed one-second fallback, whatever was accumulated before. -/
lemma scan_not_ok (rs : List Reservation) :
    (∃ r ∈ rs, r.ok = false) → ∀ b w,
      scanReservations rs b w = (false, (nsPerSecond : ℚ)) := by
  induction rs with
  | nil => rintro ⟨r, hr, _⟩ b w; exact absurd hr (List.not_mem_nil r)
  | cons r rest ih =>
      rintro ⟨s, hs, hok⟩ b w
      rcases List.mem_cons.mp hs with h | h
      · subst h
        simp [scanReservations, hok]
      · by_cases hr : r.ok = false
        · simp [scanReservations, hr]
        · have hr' : r.ok = true := by
            cases hrok : r.ok
            · exact absurd hrok hr
            · rfl
          simp only [scanReservations, hr']
          by_cases hd : 0 < r.delayNs
          · simp only [hd, if_true, if_false]
            exact ih ⟨s, h, hok⟩ false (max w r.delayNs)
          · simp only [hd, if_false]
            exact ih ⟨s, h, hok⟩ b w

/-- Scanning an all-OK reservation list folds the maximum positive delay
into the accumulator. -/
lemma scan_all_ok_snd (rs : List Reservation) :
    (∀ r ∈ rs, r.ok = true) → ∀ b w,
      (scanReservations rs b w).2 =
        rs.foldl (fun acc r => if 0 < r.delayNs then max acc r.delayNs else acc) w := by
  induction rs with
  | nil => intro _ b w; rfl
  | cons r rest ih =>
      intro h b w
      have hr : r.ok = true := h r (by simp)
      have hrest : ∀ s ∈ rest, s.ok = true := fun s hs => h s (by simp [hs])
      simp only [scanReservations, hr, List.foldl_cons]
      by_cases hd : 0 < r.delayNs
      · simp only [hd, if_true]
        exact ih hrest false (max w r.delayNs)
      · simp only [hd, if_false]
        exact ih hrest b w

/-- On an all-OK list the spec's maximum coincides with the scan fold. -/
lemma specMaxWait_all_ok (rs : List Reservation) :
    (∀ r ∈ rs, r.ok = true) → ∀ w,
      rs.foldl
          (fun acc r =>
            if r.ok then (if 0 < r.delayNs then max acc r.delayNs else acc)
            else max acc ((nsPerSecond : ℚ))) w =
        rs.foldl (fun acc r => if 0 < r.delayNs then max acc r.delayNs else acc) w := by
  induction rs with
  | nil => intro _ w; rfl
  | cons r rest ih =>
      intro h w
      have hr : r.ok = true := h r (by simp)
      simp only [List.foldl_cons, hr, if_true]
      exact ih (fun s hs => h s (by simp [hs])) _

/-- Explicit form of the fixture state: both buckets drained. -/
lemma c2State_eq : c2State =
    ⟨[cfgSlow, cfgZero], [(⟨"k", "zero"⟩, 1), (⟨"k", ""⟩, 0)],
     [⟨1/3600, 1, 0, 0⟩, ⟨0, 1, 0, 0⟩], 10000⟩ := by
  simp [c2State, NewRateLimiter, DefaultMaxCacheSize, RateLimiter.Allow,
    collectReservations, reserveStep, getOrCreateLimiter, lruGetEntry, removeKey,
    lruPut, arenaGet, newLimiter, Limiter.reserve, Limiter.advanceTokens,
    scanReservations, cancelAll, cfgSlow, cfgZero, RateLimitConfig.Rate,
    RateLimitConfig.EffectiveBurst, RateLimitConfig.Matches, nsPerSecond,
    max_def, min_def]
  try norm_num

/-- The fixture's second call collects a one-hour OK delay from the slow
rule and a not-OK reservation from the zero-rate rule. -/
lemma c2_collect_eq : (collectReservations c2State "/x" "k" 0).1 =
    [⟨true, 3600000000000, 0⟩, ⟨false, 0, 1⟩] := by
  rw [c2State_eq]
  simp [collectReservations, reserveStep, getOrCreateLimiter, lruGetEntry,
    removeKey, arenaGet, Limiter.reserve, Limiter.advanceTokens, cfgSlow, cfgZero,
    RateLimitConfig.Matches, RateLimitConfig.Rate, RateLimitConfig.EffectiveBurst,
    nsPerSecond, max_def, min_def]
  try norm_num

/-- The fixture's second call is denied with the one-second fallback. -/
lemma c2_allow_fst : (c2State.Allow "/x" "k" 0).1 = (false, (nsPerSecond : ℚ)) := by
  simp only [RateLimiter.Allow]
  rw [c2_collect_eq]
  simp [scanReservations, nsPerSecond, max_def]
  try norm_num

/-- C2 counterexample: in the fixture state both buckets are empty; the
slow rule's reservation advises a one-hour delay and the zero-rate rule's
reservation is not OK, so the maximum delay across denying reservations is
one hour — but the code returns the one-second fallback, because the scan
overwrites the accumulated maximum when it hits the not-OK reservation. -/
theorem retry_after_not_max_counterexample :
    (c2State.Allow "/x" "k" 0).1 = (false, (nsPerSecond : ℚ)) ∧
    specMaxWait (collectReservations c2State "/x" "k" 0).1 = (3600000000000 : ℚ) ∧
    ((nsPerSecond : ℚ)) ≠ (3600000000000 : ℚ) := by
  refine ⟨c2_allow_fst, ?_, by norm_num [nsPerSecond]⟩
  rw [c2_collect_eq]
  norm_num [specMaxWait, nsPerSecond, max_def]

/-- C2 amended: when the call is denied and every collected reservation is
OK, retryAfter is the maximum delay across the denying reservations; but
when any collected reservation is not OK, retryAfter is exactly the fixed
one-second fallback, regardless of any longer delay another reservation
advised. -/
theorem retry_after_amended (rl : RateLimiter) (path key : String) (now : Int)
    (hdenied : (rl.Allow path key now).1.1 = false) :
    ((∃ r ∈ (collectReservations rl path key now).1, r.ok = false) →
      (rl.Allow path key now).1.2 = (nsPerSecond : ℚ)) ∧
    ((∀ r ∈ (collectReservations rl path key now).1, r.ok = true) →
      (rl.Allow path key now).1.2 =
        specMaxWait (collectReservations rl path key now).1) := by
  constructor
  · intro hex
    have hscan := scan_not_ok (collectReservations rl path key now).1 hex true 0
    simp only [RateLimiter.Allow] at hdenied ⊢
    by_cases hlen : (collectReservations rl path key now).1.length = 0
    · simp [hlen] at hdenied
    · simp only [hlen, if_false, hscan] at hdenied ⊢
      simp
  · intro hall
    have hsnd := scan_all_ok_snd (collectReservations rl path key now).1 hall true 0
    have hspec := specMaxWait_all_ok (collectReservations rl path key now).1 hall 0
    simp only [RateLimiter.Allow] at hdenied ⊢
    by_cases hlen : (collectReservations rl path key now).1.length = 0
    · simp [hlen] at hdenied
    · simp only [hlen, if_false] at hdenied ⊢
      by_cases hfst : (scanReservations (collectReservations rl path key now).1 true 0).1
      · simp [hfst] at hdenied
      · simp only [hfst, if_false] at hdenied ⊢
        simp only [specMaxWait, hspec]
        exact hsnd

/-- C2 amended witness: the fixture denial returns exactly the one-second
fallback, as the amended statement prescribes for a not-OK reservation. -/
theorem retry_after_amended_witness :
    (c2State.Allow "/x" "k" 0).1.1 = false ∧
    (∃ r ∈ (collectReservations c2State "/x" "k" 0).1, r.ok = false) ∧
    (c2State.Allow "/x" "k" 0).1.2 = (nsPerSecond : ℚ) := by
  have hdenied : (c2State.Allow "/x" "k" 0).1.1 = false := by
    rw [c2_allow_fst]
  have hex : ∃ r ∈ (collectReservations c2State "/x" "k" 0).1, r.ok = false :=
    ⟨⟨false, 0, 1⟩, by rw [c2_collect_eq]; simp, rfl⟩
  have h := retry_after_amended c2State "/x" "k" 0 hdenied
  exact ⟨hdenied, hex, h.1 hex⟩

lemma getD_append_length {α : Type} (l : List α) (y d : α) :
    (l ++ [y]).getD l.length d = y := by
  induction l with
  | nil => rfl
  | cons a t ih => simpa using ih

lemma set_append_length {α : Type} (l : List α) (y b : α) :
    (l ++ [y]).set l.length b = l ++ [b] := by
  induction l with
  | nil => rfl
  | cons a t ih => simp [List.set, ih]

/-- A key misses in the recency list exactly when no entry carries it. -/
lemma lruGetEntry_none_iff (cache : List (limiterKey × Nat)) (k : limiterKey) :
    lruGetEntry cache k = none ↔ ∀ e ∈ cache, e.1 ≠ k := by
  simp [lruGetEntry, List.find?_eq_none]

/-- Removing an absent key leaves the recency list untouched. -/
lemma removeKey_of_not_mem (cache : List (limiterKey × Nat)) (k : limiterKey)
    (h : ∀ e ∈ cache, e.1 ≠ k) : removeKey cache k = cache := by
  rw [removeKey, List.filter_eq_self]
  intro a ha
  simpa using h a ha

/-- Cache-hit equation of getOrCreateLimiter. -/
lemma getOrCreate_hit (rl : RateLimiter) (key : limiterKey) (cfg : RateLimitConfig)
    (now : Int) (idx : Nat) (h : lruGetEntry rl.cache key = some idx) :
    getOrCreateLimiter rl key cfg now =
      (idx, { rl with cache := (key, idx) :: removeKey rl.cache key }) := by
  simp [getOrCreateLimiter, h]

/-- Cache-miss equation of getOrCreateLimiter. -/
lemma getOrCreate_miss (rl : RateLimiter) (key : limiterKey) (cfg : RateLimitConfig)
    (now : Int) (h : lruGetEntry rl.cache key = none) :
    getOrCreateLimiter rl key cfg now =
      (rl.arena.length,
       { rl with cache := (lruPut rl.cache key rl.arena.length rl.maxSize).2,
                 arena := rl.arena ++ [newLimiter cfg now] }) := by
  simp [getOrCreateLimiter, h]

lemma getOrCreate_maxSize (rl : RateLimiter) (key : limiterKey)
    (cfg : RateLimitConfig) (now : Int) :
    ((getOrCreateLimiter rl key cfg now).2).maxSize = rl.maxSize := by
  rcases h : lruGetEntry rl.cache key with _ | idx
  · rw [getOrCreate_miss rl key cfg now h]
  · rw [getOrCreate_hit rl key cfg now idx h]

/-- A get-or-insert never grows the cache beyond the configured maximum. -/
lemma getOrCreate_cache_le (rl : RateLimiter) (key : limiterKey)
    (cfg : RateLimitConfig) (now : Int) (h : rl.cache.length ≤ rl.maxSize) :
    ((getOrCreateLimiter rl key cfg now).2).cache.length ≤ rl.maxSize := by
  rcases hx : lruGetEntry rl.cache key with _ | idx
  · rw [getOrCreate_miss rl key cfg now hx]
    simp only [lruPut]
    simpa using List.length_take_le rl.maxSize
      ((key, rl.arena.length) :: removeKey rl.cache key)
  · rw [getOrCreate_hit rl key cfg now idx hx]
    have hsome : ∃ e, rl.cache.find? (fun e => decide (e.1 = key)) = some e := by
      rcases hfind : rl.cache.find? (fun e => decide (e.1 = key)) with _ | e
      · simp [lruGetEntry, hfind] at hx
      · exact ⟨e, hfind⟩
    obtain ⟨e, he⟩ := hsome
    have hmem : e ∈ rl.cache := List.mem_of_find?_eq_some he
    have hkey : e.1 = key := by simpa using List.find?_some he
    have hlt : (removeKey rl.cache key).length < rl.cache.length := by
      rw [removeKey]
      refine List.length_filter_lt_length_iff_exists.mpr ⟨e, hmem, ?_⟩
      simp [hkey]
    simp only [List.length_cons]
    omega

/-- Inserting pairwise-distinct fresh keys grows the cache to the capacity
cap and no further, preserving the configured maximum. -/
lemma insertKeys_length (cfg : RateLimitConfig) (now : Int) :
    ∀ (ks : List limiterKey) (rl : RateLimiter), ks.Nodup →
      (∀ e ∈ rl.cache, e.1 ∉ ks) →
      rl.cache.length ≤ rl.maxSize →
      (insertKeys rl ks cfg now).cache.length =
        min (rl.cache.length + ks.length) rl.maxSize ∧
      (insertKeys rl ks cfg now).maxSize = rl.maxSize := by
  intro ks
  induction ks with
  | nil =>
      intro rl _ _ hlen
      refine ⟨?_, rfl⟩
      simp only [insertKeys, List.foldl_nil, List.length_nil]
      omega
  | cons k rest ih =>
      intro rl hnodup hfresh hlen
      have hk : ∀ e ∈ rl.cache, e.1 ≠ k := by
        intro e he heq
        exact hfresh e he (by simp [heq])
      have hmiss : lruGetEntry rl.cache k = none := (lruGetEntry_none_iff _ _).mpr hk
      have hrem : removeKey rl.cache k = rl.cache := removeKey_of_not_mem _ _ hk
      have hstep : insertKeys rl (k :: rest) cfg now =
          insertKeys ((getOrCreateLimiter rl k cfg now).2) rest cfg now := by
        simp [insertKeys]
      have hcache : ((getOrCreateLimiter rl k cfg now).2).cache =
          List.take rl.maxSize ((k, rl.arena.length) :: rl.cache) := by
        rw [getOrCreate_miss rl k cfg now hmiss]
        simp only [lruPut, hrem]
      have hlen' : ((getOrCreateLimiter rl k cfg now).2).cache.length =
          min rl.maxSize (rl.cache.length + 1) := by
        rw [hcache]
        simp [List.length_take]
      have hfresh' : ∀ e ∈ ((getOrCreateLimiter rl k cfg now).2).cache, e.1 ∉ rest := by
        rw [hcache]
        intro e he
        have he2 : e ∈ (k, rl.arena.length) :: rl.cache := List.take_subset _ _ he
        rcases List.mem_cons.mp he2 with h | h
        · subst h
          simpa using (List.nodup_cons.mp hnodup).1
        · intro hmem
          exact hfresh e h (by simp [hmem])
      have hms : ((getOrCreateLimiter rl k cfg now).2).maxSize = rl.maxSize :=
        getOrCreate_maxSize rl k cfg now
      have := ih ((getOrCreateLimiter rl k cfg now).2)
        (List.nodup_cons.mp hnodup).2 hfresh' (by rw [hlen', hms]; omega)
      refine ⟨?_, by rw [hstep, this.2, hms]⟩
      rw [hstep, this.1, hlen', hms]
      simp only [List.length_cons]
      omega

/-- C4: the bucket cache never exceeds the configured maximum (default
10,000): a limiter built without the size option has capacity 10,000; one
get-or-insert preserves the bound; inserting K pairwise-distinct keys into
an empty cache of capacity C < K leaves exactly C entries; an insertion at
capacity evicts exactly the least-recently-used entry (the back of the
recency list); and accessing an existing key moves it to the front. -/
theorem lru_cache_bounded :
    (∀ cfgs, (NewRateLimiter cfgs none).maxSize = DefaultMaxCacheSize ∧
        DefaultMaxCacheSize = 10000) ∧
    (∀ (rl : RateLimiter) key cfg now, rl.cache.length ≤ rl.maxSize →
        ((getOrCreateLimiter rl key cfg now).2).cache.length ≤ rl.maxSize) ∧
    (∀ cfgs C (ks : List limiterKey) cfg now, ks.Nodup → C < ks.length →
        (insertKeys (RateLimiter.mk cfgs [] [] C) ks cfg now).cache.length = C) ∧
    (∀ (rl : RateLimiter) key cfg now, rl.cache.length = rl.maxSize →
        1 ≤ rl.maxSize → lruGetEntry rl.cache key = none →
        ((getOrCreateLimiter rl key cfg now).2).cache =
          (key, rl.arena.length) :: rl.cache.dropLast ∧
        (lruPut rl.cache key rl.arena.length rl.maxSize).1 = true) ∧
    (∀ (rl : RateLimiter) key cfg now idx, lruGetEntry rl.cache key = some idx →
        ((getOrCreateLimiter rl key cfg now).2).cache =
          (key, idx) :: removeKey rl.cache key) := by
  refine ⟨fun cfgs => ⟨rfl, rfl⟩, fun rl key cfg now h =>
    getOrCreate_cache_le rl key cfg now h, ?_, ?_, ?_⟩
  · intro cfgs C ks cfg now hnodup hC
    have := insertKeys_length cfg now ks (RateLimiter.mk cfgs [] [] C) hnodup
      (by intro e he; simp at he) (by simp)
    rw [this.1]
    simp only [List.length_nil, Nat.zero_add]
    omega
  · intro rl key cfg now hfull hpos hmiss
    have hk : ∀ e ∈ rl.cache, e.1 ≠ key := (lruGetEntry_none_iff _ _).mp hmiss
    have hrem : removeKey rl.cache key = rl.cache := removeKey_of_not_mem _ _ hk
    constructor
    · rw [getOrCreate_miss rl key cfg now hmiss]
      simp only [lruPut, hrem]
      obtain ⟨m, hm⟩ : ∃ m, rl.maxSize = m + 1 := ⟨rl.maxSize - 1, by omega⟩
      rw [hm, List.take_succ_cons, List.dropLast_eq_take, hfull, hm]
      simp
    · simp only [lruPut, hrem, List.length_cons, hfull]
      simp
  · intro rl key cfg now idx h
    rw [getOrCreate_hit rl key cfg now idx h]

/-- C4 witness: the capacity theorem evaluated at three distinct keys and
capacity two, at the default-size constructor, and at an at-capacity
insertion on a concrete full cache. -/
theorem lru_cache_bounded_witness :
    (NewRateLimiter [] none).maxSize = 10000 ∧
    (insertKeys (RateLimiter.mk [] [] [] 2)
        [⟨"a", ""⟩, ⟨"b", ""⟩, ⟨"c", ""⟩] cfgZero 0).cache.length = 2 ∧
    ((getOrCreateLimiter (RateLimiter.mk [] [(⟨"a", ""⟩, 0)] [] 1)
        ⟨"b", ""⟩ cfgZero 0).2).cache = [(⟨"b", ""⟩, 0)] := by
  obtain ⟨h1, h2, h3, h4, h5⟩ := lru_cache_bounded
  refine ⟨by rw [(h1 []).1, (h1 []).2], ?_, ?_⟩
  · exact h3 [] 2 [⟨"a", ""⟩, ⟨"b", ""⟩, ⟨"c", ""⟩] cfgZero 0 (by decide) (by decide)
  · have := h4 (RateLimiter.mk [] [(⟨"a", ""⟩, 0)] [] 1) ⟨"b", ""⟩ cfgZero 0
      (by decide) (by decide) (by simp [lruGetEntry])
    simpa using this.1

/-- Reserving from a freshly created bucket at its creation instant succeeds
with zero delay and debits exactly one token. -/
lemma reserve_fresh (cfg : RateLimitConfig) (now : Int)
    (hburst : 1 ≤ cfg.EffectiveBurst) :
    (newLimiter cfg now).reserve now =
      ((true, 0), ⟨cfg.Rate, cfg.EffectiveBurst, (cfg.EffectiveBurst : ℚ) - 1, now⟩) := by
  have hburstQ : (1 : ℚ) ≤ (cfg.EffectiveBurst : ℚ) := by exact_mod_cast hburst
  by_cases hz : cfg.Rate = 0
  · simp only [Limiter.reserve, newLimiter, hz, if_pos rfl, if_pos hburstQ, if_true]
  · simp only [Limiter.reserve, newLimiter, Limiter.advanceTokens]
    rw [if_neg hz]
    have hadv : max 0 (now - now) = 0 := by omega
    rw [hadv]
    have htriv : (cfg.EffectiveBurst : ℚ) + cfg.Rate * ((0 : Int) : ℚ) / (nsPerSecond : ℚ) =
        (cfg.EffectiveBurst : ℚ) := by push_cast; ring
    rw [htriv, min_self]
    have hnotlt : ¬ ((cfg.EffectiveBurst : ℚ) - 1 < 0) := by
      intro hcon
      have := lt_of_le_of_lt hburstQ (by linarith : (cfg.EffectiveBurst : ℚ) < 1)
      exact absurd this (lt_irrefl 1)
    rw [if_neg hnotlt, if_pos hburst]

/-- C9: when a (clientKey, pathPattern) entry is absent from the cache —
including after an eviction — the next get-or-insert creates a brand-new
bucket that starts full at the rule's effective burst; consequently, for a
single-rule limiter, the next matching Allow call of that client is
permitted and leaves the fresh bucket with one token debited: any quota
already consumed before the eviction is forgotten. -/
theorem eviction_starts_fresh (rl : RateLimiter) (key : limiterKey)
    (cfg : RateLimitConfig) (now : Int)
    (hmiss : lruGetEntry rl.cache key = none) :
    getOrCreateLimiter rl key cfg now =
      (rl.arena.length,
       { rl with cache := (lruPut rl.cache key rl.arena.length rl.maxSize).2,
                 arena := rl.arena ++ [newLimiter cfg now] }) ∧
    (newLimiter cfg now).tokens = (cfg.EffectiveBurst : ℚ) ∧
    (newLimiter cfg now).burst = cfg.EffectiveBurst ∧
    (newLimiter cfg now).limit = cfg.Rate ∧
    (∀ ck path, rl.configs = [cfg] → key = ⟨ck, cfg.PathRegexp⟩ →
        cfg.Matches path = true → 1 ≤ cfg.EffectiveBurst →
        (rl.Allow path ck now).1 = (true, 0) ∧
        arenaGet (rl.Allow path ck now).2.arena rl.arena.length =
          ⟨cfg.Rate, cfg.EffectiveBurst, (cfg.EffectiveBurst : ℚ) - 1, now⟩) := by
  refine ⟨getOrCreate_miss rl key cfg now hmiss, rfl, rfl, rfl, ?_⟩
  intro ck path hcfgs hkey hmatch hburst
  have hres := reserve_fresh cfg now hburst
  have hget : (rl.arena ++ [newLimiter cfg now]).getD rl.arena.length defaultLimiter =
      newLimiter cfg now := getD_append_length rl.arena (newLimiter cfg now) defaultLimiter
  have hcol : collectReservations rl path ck now =
      ([⟨true, 0, rl.arena.length⟩],
       { rl with
           cache := (lruPut rl.cache key rl.arena.length rl.maxSize).2,
           arena := rl.arena ++
             [⟨cfg.Rate, cfg.EffectiveBurst, (cfg.EffectiveBurst : ℚ) - 1, now⟩] }) := by
    rw [collectReservations, hcfgs]
    simp only [List.foldl_cons, List.foldl_nil, reserveStep, hmatch, if_pos rfl]
    rw [← hkey, getOrCreate_miss rl key cfg now hmiss]
    simp only [arenaGet]
    rw [hget, hres]
    simp only [set_append_length rl.arena, List.nil_append]
    simp [hcfgs]
  constructor
  · rw [RateLimiter.Allow, hcol]
    simp [scanReservations]
  · rw [RateLimiter.Allow, hcol]
    simp [scanReservations, arenaGet]

/-- C9 witness: a single slow rule with an empty cache — the first call is
permitted from a full fresh bucket that ends with one token debited. -/
theorem eviction_starts_fresh_witness :
    ((NewRateLimiter [cfgSlow] none).Allow "/x" "k" 0).1 = (true, 0) ∧
    arenaGet ((NewRateLimiter [cfgSlow] none).Allow "/x" "k" 0).2.arena 0 =
      ⟨cfgSlow.Rate, cfgSlow.EffectiveBurst, (cfgSlow.EffectiveBurst : ℚ) - 1, 0⟩ := by
  have h := eviction_starts_fresh (NewRateLimiter [cfgSlow] none) ⟨"k", ""⟩
    cfgSlow 0 (by simp [NewRateLimiter, lruGetEntry])
  have h5 := h.2.2.2.2 "k" "/x" rfl rfl rfl (by decide)
  exact ⟨h5.1, by simpa [NewRateLimiter] using h5.2⟩

lemma chain_le_head (t : Int) (rest : List Int)
    (h : List.Chain' (· ≤ ·) (t :: rest)) : ∀ x ∈ rest, t ≤ x := by
  induction rest generalizing t with
  | nil => intro x hx; simp at hx
  | cons r rs ih =>
      intro x hx
      have h1 : t ≤ r := (List.chain'_cons.mp h).1
      have h2 := (List.chain'_cons.mp h).2
      rcases List.mem_cons.mp hx with hx0 | hx'
      · exact hx0 ▸ h1
      · exact le_trans h1 (ih r h2 x hx')

/-- Collecting on a single-rule limiter whose bucket is resident takes one
reservation from that bucket. -/
lemma collect_single (cfg : RateLimitConfig) (ck path : String) (M : Nat)
    (l : Limiter) (t : Int) (hmatch : cfg.Matches path = true) :
    collectReservations ⟨[cfg], [(⟨ck, cfg.PathRegexp⟩, 0)], [l], M⟩ path ck t =
      ([⟨(l.reserve t).1.1, (l.reserve t).1.2, 0⟩],
       ⟨[cfg], [(⟨ck, cfg.PathRegexp⟩, 0)], [(l.reserve t).2], M⟩) := by
  have hhit : lruGetEntry [(⟨ck, cfg.PathRegexp⟩, 0)] ⟨ck, cfg.PathRegexp⟩ = some 0 := by
    simp [lruGetEntry]
  rw [collectReservations]
  simp only [List.foldl_cons, List.foldl_nil, reserveStep, hmatch, if_true]
  rw [getOrCreate_hit _ _ _ _ 0 hhit]
  simp [removeKey, arenaGet]

lemma allow_single_allowed (cfg : RateLimitConfig) (ck path : String) (M : Nat)
    (l : Limiter) (t : Int) (hmatch : cfg.Matches path = true)
    (hok : (l.reserve t).1.1 = true) (hdelay : ¬ (0 < (l.reserve t).1.2)) :
    RateLimiter.Allow ⟨[cfg], [(⟨ck, cfg.PathRegexp⟩, 0)], [l], M⟩ path ck t =
      ((true, 0), ⟨[cfg], [(⟨ck, cfg.PathRegexp⟩, 0)], [(l.reserve t).2], M⟩) := by
  rw [RateLimiter.Allow, collect_single cfg ck path M l t hmatch]
  simp [scanReservations, hok, hdelay]

lemma allow_single_denied_notok (cfg : RateLimitConfig) (ck path : String) (M : Nat)
    (l : Limiter) (t : Int) (hmatch : cfg.Matches path = true)
    (hok : (l.reserve t).1.1 = false) :
    RateLimiter.Allow ⟨[cfg], [(⟨ck, cfg.PathRegexp⟩, 0)], [l], M⟩ path ck t =
      ((false, (nsPerSecond : ℚ)),
       ⟨[cfg], [(⟨ck, cfg.PathRegexp⟩, 0)], [(l.reserve t).2], M⟩) := by
  rw [RateLimiter.Allow, collect_single cfg ck path M l t hmatch]
  simp [scanReservations, hok, cancelAll]

lemma allow_single_denied_delay (cfg : RateLimitConfig) (ck path : String) (M : Nat)
    (l : Limiter) (t : Int) (hmatch : cfg.Matches path = true)
    (hok : (l.reserve t).1.1 = true) (hdelay : 0 < (l.reserve t).1.2) :
    (RateLimiter.Allow ⟨[cfg], [(⟨ck, cfg.PathRegexp⟩, 0)], [l], M⟩ path ck t).1 =
      (false, (l.reserve t).1.2) := by
  rw [RateLimiter.Allow, collect_single cfg ck path M l t hmatch]
  simp [scanReservations, hok, hdelay, max_eq_right (le_of_lt hdelay)]

/-- Reserving when at least one token is available succeeds with zero delay
and debits one token; at positive rate the refill timestamp advances. -/
lemma reserve_ok_spec (l : Limiter) (t : Int) (hburst : 1 ≤ l.burst)
    (havail : 1 ≤ availAt l t) :
    l.reserve t = ((true, 0),
      ⟨l.limit, l.burst, availAt l t - 1, if l.limit = 0 then l.last else t⟩) := by
  by_cases hz : l.limit = 0
  · have h1 : availAt l t = l.tokens := by simp [availAt, hz]
    have htok : 1 ≤ l.tokens := h1 ▸ havail
    simp [Limiter.reserve, hz, htok, h1]
  · have h1 : availAt l t = l.advanceTokens t := by simp [availAt, hz]
    have hnot : ¬ (l.advanceTokens t - 1 < 0) := by
      rw [← h1]; intro hcon; linarith
    simp [Limiter.reserve, hz, hnot, hburst, h1]

/-- Reserving from an exhausted zero-rate bucket is a not-OK no-op. -/
lemma reserve_denied_zero (l : Limiter) (t : Int) (hz : l.limit = 0)
    (htok : ¬ (1 ≤ l.tokens)) : l.reserve t = ((false, 0), l) := by
  simp [Limiter.reserve, hz, htok]

/-- Reserving at positive rate with less than one token available is OK but
carries a strictly positive delay. -/
lemma reserve_delay_pos (l : Limiter) (t : Int) (hlim : 0 < l.limit)
    (hburst : 1 ≤ l.burst) (havail : availAt l t < 1) :
    (l.reserve t).1.1 = true ∧ 0 < (l.reserve t).1.2 := by
  have hz : ¬ (l.limit = 0) := by intro hcon; rw [hcon] at hlim; exact lt_irrefl 0 hlim
  have h1 : availAt l t = l.advanceTokens t := by simp [availAt, hz]
  have hneg : l.advanceTokens t - 1 < 0 := by rw [← h1]; linarith
  have hdel : (0 : ℚ) < (1 - l.advanceTokens t) * (nsPerSecond : ℚ) / l.limit := by
    apply div_pos _ hlim
    apply mul_pos (by linarith)
    norm_num [nsPerSecond]
  simp [Limiter.reserve, hz, hneg, hburst]
  exact hdel

/-- The first matching call of a client on a fresh single-rule limiter is
permitted and installs the bucket with one token debited. -/
lemma allow_first_fresh (cfg : RateLimitConfig) (ck path : String) (M : Nat)
    (t : Int) (hmatch : cfg.Matches path = true)
    (hburst : 1 ≤ cfg.EffectiveBurst) (hM : 1 ≤ M) :
    RateLimiter.Allow ⟨[cfg], [], [], M⟩ path ck t =
      ((true, 0),
       ⟨[cfg], [(⟨ck, cfg.PathRegexp⟩, 0)],
        [⟨cfg.Rate, cfg.EffectiveBurst, (cfg.EffectiveBurst : ℚ) - 1, t⟩], M⟩) := by
  have hmiss : lruGetEntry ([] : List (limiterKey × Nat)) ⟨ck, cfg.PathRegexp⟩ = none := rfl
  have htake : List.take M [((⟨ck, cfg.PathRegexp⟩ : limiterKey), 0)] =
      [((⟨ck, cfg.PathRegexp⟩ : limiterKey), 0)] :=
    List.take_of_length_le (by simpa using hM)
  have hcol : collectReservations ⟨[cfg], [], [], M⟩ path ck t =
      ([⟨true, 0, 0⟩],
       ⟨[cfg], [(⟨ck, cfg.PathRegexp⟩, 0)],
        [⟨cfg.Rate, cfg.EffectiveBurst, (cfg.EffectiveBurst : ℚ) - 1, t⟩], M⟩) := by
    rw [collectReservations]
    simp only [List.foldl_cons, List.foldl_nil, reserveStep, hmatch, if_true]
    rw [getOrCreate_miss _ _ _ _ hmiss]
    simp [arenaGet, lruPut, removeKey, reserve_fresh cfg t hburst, htake]
  rw [RateLimiter.Allow, hcol]
  simp [scanReservations]

/-- Induction core for the burst-exhaustion property: running the remaining
calls against a resident bucket whose token count is bracketed by the
debits so far, every call but the last is permitted and the last one is
denied with a positive advised wait. -/
lemma burst_run (cfg : RateLimitConfig) (ck path : String) (M : Nat)
    (hmatch : cfg.Matches path = true) (hburst : 1 ≤ cfg.EffectiveBurst)
    (hrate : 0 ≤ cfg.Rate) (t1 : Int) :
    ∀ (ts : List Int) (n : Nat) (l : Limiter),
      List.Chain' (· ≤ ·) ts →
      (∀ t ∈ ts, l.last ≤ t) →
      (∀ t ∈ ts, cfg.Rate * ((t - t1 : Int) : ℚ) < (nsPerSecond : ℚ)) →
      l.limit = cfg.Rate →
      l.burst = cfg.EffectiveBurst →
      (cfg.EffectiveBurst : ℚ) - n ≤ l.tokens →
      (∀ t' : Int, l.last ≤ t' →
          availAt l t' ≤ ((cfg.EffectiveBurst : ℚ) - n)
            + cfg.Rate * ((t' - t1 : Int) : ℚ) / (nsPerSecond : ℚ)) →
      n + ts.length = cfg.EffectiveBurst.toNat + 1 →
      (∀ i, i + 1 < ts.length →
          (runCalls ⟨[cfg], [(⟨ck, cfg.PathRegexp⟩, 0)], [l], M⟩ path ck ts).1.getD
            i (false, 0) = (true, 0)) ∧
      (0 < ts.length →
          ((runCalls ⟨[cfg], [(⟨ck, cfg.PathRegexp⟩, 0)], [l], M⟩ path ck ts).1.getD
              (ts.length - 1) (true, 0)).1 = false ∧
          0 < ((runCalls ⟨[cfg], [(⟨ck, cfg.PathRegexp⟩, 0)], [l], M⟩ path ck ts).1.getD
              (ts.length - 1) (true, 0)).2) := by
  have hcast : ((cfg.EffectiveBurst.toNat : ℚ)) = (cfg.EffectiveBurst : ℚ) := by
    have h1 : (cfg.EffectiveBurst.toNat : Int) = cfg.EffectiveBurst :=
      Int.toNat_of_nonneg (by omega)
    exact_mod_cast h1
  intro ts
  induction ts with
  | nil =>
      intro n l _ _ _ _ _ _ _ _
      exact ⟨fun i hi => absurd hi (by simp), fun h => absurd h (by simp)⟩
  | cons t rest ih =>
      intro n l hchain hlast hrefill hlim hbst hlow hup hcount
      have hlast0 : l.last ≤ t := hlast t (by simp)
      have havail_low : (cfg.EffectiveBurst : ℚ) - n ≤ availAt l t := by
        by_cases hz : l.limit = 0
        · simpa [availAt, hz] using hlow
        · have hd : (0 : ℚ) ≤
              l.limit * ((max 0 (t - l.last) : Int) : ℚ) / (nsPerSecond : ℚ) := by
            apply div_nonneg
            · apply mul_nonneg (by rw [hlim]; exact hrate)
              exact_mod_cast le_max_left 0 (t - l.last)
            · norm_num [nsPerSecond]
          rw [availAt, if_neg hz, Limiter.advanceTokens]
          apply le_min
          · rw [hbst]
            have : (0 : ℚ) ≤ n := by positivity
            linarith
          · linarith
      rcases rest with _ | ⟨r, rest'⟩
      · have hn : n = cfg.EffectiveBurst.toNat := by
          simp only [List.length_cons, List.length_nil] at hcount
          omega
        have havail_hi : availAt l t < 1 := by
          have h2 := hup t hlast0
          have h3 := hrefill t (by simp)
          rw [hn, hcast] at h2
          have h4 : cfg.Rate * ((t - t1 : Int) : ℚ) / (nsPerSecond : ℚ) < 1 := by
            rw [div_lt_one (by norm_num [nsPerSecond])]
            exact h3
          linarith
        refine ⟨fun i hi => absurd hi (by simp), fun _ => ?_⟩
        by_cases hz : l.limit = 0
        · have htok : ¬ (1 ≤ l.tokens) := by
            have h5 : availAt l t = l.tokens := by simp [availAt, hz]
            rw [h5] at havail_hi
            intro hcon; linarith
          have hok : (l.reserve t).1.1 = false := by
            rw [reserve_denied_zero l t hz htok]
          have hallow := allow_single_denied_notok cfg ck path M l t hmatch hok
          simp only [runCalls, hallow]
          constructor
          · simp
          · simp [nsPerSecond]
        · have hlim_pos : 0 < l.limit := by
            rcases lt_or_eq_of_le hrate with h | h
            · rw [hlim]; exact h
            · exact absurd (hlim.trans h.symm) hz
          have hd := reserve_delay_pos l t hlim_pos (by rw [hbst]; exact hburst) havail_hi
          have hallow := allow_single_denied_delay cfg ck path M l t hmatch hd.1 hd.2
          simp only [runCalls, hallow]
          constructor
          · simp [hallow]
          · simp [hallow]
            exact hd.2
      · have hone : (1 : ℚ) ≤ (cfg.EffectiveBurst : ℚ) - n := by
          have hn1 : n + 1 ≤ cfg.EffectiveBurst.toNat := by
            simp only [List.length_cons] at hcount
            omega
          have h6 : ((n : ℚ)) + 1 ≤ ((cfg.EffectiveBurst.toNat : ℚ)) := by
            exact_mod_cast hn1
          rw [hcast] at h6
          linarith
        have havail1 : (1 : ℚ) ≤ availAt l t := le_trans hone havail_low
        have hres := reserve_ok_spec l t (by rw [hbst]; exact hburst) havail1
        have hok : (l.reserve t).1.1 = true := by rw [hres]
        have hdel : ¬ (0 < (l.reserve t).1.2) := by rw [hres]; norm_num
        have hallow := allow_single_allowed cfg ck path M l t hmatch hok hdel
        have hstate : (l.reserve t).2 =
            ⟨l.limit, l.burst, availAt l t - 1, if l.limit = 0 then l.last else t⟩ := by
          rw [hres]
        have hchain' := (List.chain'_cons.mp hchain).2
        have hlast' : ∀ x ∈ r :: rest',
            (⟨l.limit, l.burst, availAt l t - 1,
              if l.limit = 0 then l.last else t⟩ : Limiter).last ≤ x := by
          intro x hx
          by_cases hz : l.limit = 0
          · simp only [hz, if_pos rfl]
            exact hlast x (by simp [hx])
          · simp only [if_neg hz]
            exact chain_le_head t (r :: rest') hchain x hx
        have hlow' : (cfg.EffectiveBurst : ℚ) - (n + 1 : Nat) ≤ availAt l t - 1 := by
          push_cast
          linarith
        have hup' : ∀ t' : Int,
            (⟨l.limit, l.burst, availAt l t - 1,
              if l.limit = 0 then l.last else t⟩ : Limiter).last ≤ t' →
            availAt ⟨l.limit, l.burst, availAt l t - 1,
              if l.limit = 0 then l.last else t⟩ t' ≤
              ((cfg.EffectiveBurst : ℚ) - (n + 1 : Nat))
                + cfg.Rate * ((t' - t1 : Int) : ℚ) / (nsPerSecond : ℚ) := by
          intro t' ht'
          by_cases hz : l.limit = 0
          · have hrz : cfg.Rate = 0 := by rw [← hlim]; exact hz
            have h7 := hup l.last le_rfl
            have h8 : availAt l l.last = l.tokens := by
              by_cases hzz : l.limit = 0
              · simp [availAt, hzz]
              · exact absurd hz hzz
            rw [h8, hrz] at h7
            have h9 : availAt ⟨l.limit, l.burst, availAt l t - 1,
                if l.limit = 0 then l.last else t⟩ t' = availAt l t - 1 := by
              simp [availAt, hz]
            have h10 : availAt l t = l.tokens := by simp [availAt, hz]
            rw [h9, h10, hrz]
            push_cast
            simp only [zero_mul, zero_div] at h7 ⊢
            linarith
          · have hlt : (⟨l.limit, l.burst, availAt l t - 1,
                if l.limit = 0 then l.last else t⟩ : Limiter).last = t := by
              simp [hz]
            rw [hlt] at ht'
            have hmax : max 0 (t' - t) = t' - t := by omega
            have h11 : availAt ⟨l.limit, l.burst, availAt l t - 1,
                if l.limit = 0 then l.last else t⟩ t' ≤
                (availAt l t - 1) + l.limit * ((t' - t : Int) : ℚ) / (nsPerSecond : ℚ) := by
              simp only [availAt, Limiter.advanceTokens, hz, if_false, hmax]
              exact min_le_right _ _
            have h12 := hup t hlast0
            have h13 : l.limit * ((t' - t : Int) : ℚ) / (nsPerSecond : ℚ)
                + cfg.Rate * ((t - t1 : Int) : ℚ) / (nsPerSecond : ℚ)
                = cfg.Rate * ((t' - t1 : Int) : ℚ) / (nsPerSecond : ℚ) := by
              rw [hlim]
              push_cast
              ring
            have hc2 : (((n + 1 : Nat)) : ℚ) = (n : ℚ) + 1 := by push_cast; ring
            rw [hc2]
            linarith [h11, h12, h13.le]
        have hcount' : (n + 1) + (r :: rest').length = cfg.EffectiveBurst.toNat + 1 := by
          simp only [List.length_cons] at hcount ⊢
          omega
        have hih := ih (n + 1)
          ⟨l.limit, l.burst, availAt l t - 1, if l.limit = 0 then l.last else t⟩
          hchain' hlast' (fun x hx => hrefill x (by simp [hx]))
          hlim hbst hlow' hup' hcount'
        have hrun : (runCalls ⟨[cfg], [(⟨ck, cfg.PathRegexp⟩, 0)], [l], M⟩
              path ck (t :: r :: rest')).1 =
            (true, 0) :: (runCalls ⟨[cfg], [(⟨ck, cfg.PathRegexp⟩, 0)],
              [⟨l.limit, l.burst, availAt l t - 1,
                if l.limit = 0 then l.last else t⟩], M⟩ path ck (r :: rest')).1 := by
          rw [runCalls, hallow]
          rw [hstate]
        constructor
        · intro i hi
          rw [hrun]
          cases i with
          | zero => rfl
          | succ j =>
              rw [List.getD_cons_succ]
              refine hih.1 j ?_
              simp only [List.length_cons] at hi ⊢
              omega
        · intro _
          rw [hrun]
          have hlen2 : (t :: r :: rest').length - 1 = ((r :: rest').length - 1) + 1 := by
            simp
          rw [hlen2, List.getD_cons_succ]
          exact hih.2 (by simp)

/-- C3: for a single configured rule with effective burst B ≥ 1 and a
client key with no existing bucket, B+1 matching Allow calls at
nondecreasing times whose total refill stays below one token see exactly
the first B calls permitted and the (B+1)-th denied with a strictly
positive retryAfter. -/
theorem burst_exhaustion (cfg : RateLimitConfig) (ck path : String) (M : Nat)
    (t1 : Int) (ts : List Int)
    (hmatch : cfg.Matches path = true) (hburst : 1 ≤ cfg.EffectiveBurst)
    (hrate : 0 ≤ cfg.Rate) (hM : 1 ≤ M)
    (hchain : List.Chain' (· ≤ ·) (t1 :: ts))
    (hlen : ts.length = cfg.EffectiveBurst.toNat)
    (hrefill : ∀ t ∈ ts, cfg.Rate * ((t - t1 : Int) : ℚ) < (nsPerSecond : ℚ)) :
    (∀ i, i < cfg.EffectiveBurst.toNat →
      (runCalls ⟨[cfg], [], [], M⟩ path ck (t1 :: ts)).1.getD i (false, 0) = (true, 0)) ∧
    ((runCalls ⟨[cfg], [], [], M⟩ path ck (t1 :: ts)).1.getD
        cfg.EffectiveBurst.toNat (true, 0)).1 = false ∧
    0 < ((runCalls ⟨[cfg], [], [], M⟩ path ck (t1 :: ts)).1.getD
        cfg.EffectiveBurst.toNat (true, 0)).2 := by
  have hfirst := allow_first_fresh cfg ck path M t1 hmatch hburst hM
  have hrun : (runCalls ⟨[cfg], [], [], M⟩ path ck (t1 :: ts)).1 =
      (true, 0) :: (runCalls ⟨[cfg], [(⟨ck, cfg.PathRegexp⟩, 0)],
        [⟨cfg.Rate, cfg.EffectiveBurst, (cfg.EffectiveBurst : ℚ) - 1, t1⟩], M⟩
        path ck ts).1 := by
    rw [runCalls, hfirst]
  have hup1 : ∀ t' : Int,
      (⟨cfg.Rate, cfg.EffectiveBurst, (cfg.EffectiveBurst : ℚ) - 1, t1⟩ : Limiter).last ≤ t' →
      availAt ⟨cfg.Rate, cfg.EffectiveBurst, (cfg.EffectiveBurst : ℚ) - 1, t1⟩ t' ≤
        ((cfg.EffectiveBurst : ℚ) - (1 : Nat))
          + cfg.Rate * ((t' - t1 : Int) : ℚ) / (nsPerSecond : ℚ) := by
    intro t' ht'
    by_cases hz : cfg.Rate = 0
    · simp only [availAt, Limiter.advanceTokens, hz, if_pos rfl, if_true]
      push_cast
      simp [hz]
    · have hmax : max 0 (t' - t1) = t' - t1 := by
        simp only [Limiter.last] at ht'
        omega
      simp only [availAt, Limiter.advanceTokens, hz, if_false, hmax]
      push_cast
      exact min_le_right _ _
  have hb := burst_run cfg ck path M hmatch hburst hrate t1 ts 1
    ⟨cfg.Rate, cfg.EffectiveBurst, (cfg.EffectiveBurst : ℚ) - 1, t1⟩
    hchain.tail
    (fun t ht => chain_le_head t1 ts hchain t ht)
    hrefill rfl rfl (by push_cast; linarith) hup1
    (by rw [hlen]; omega)
  have hts_pos : 0 < ts.length := by rw [hlen]; omega
  refine ⟨?_, ?_, ?_⟩
  · intro i hi
    rw [hrun]
    cases i with
    | zero => rfl
    | succ j =>
        rw [List.getD_cons_succ]
        exact hb.1 j (by rw [hlen]; omega)
  · rw [hrun]
    have hidx : cfg.EffectiveBurst.toNat = (ts.length - 1) + 1 := by rw [hlen]; omega
    rw [hidx, List.getD_cons_succ]
    exact (hb.2 hts_pos).1
  · rw [hrun]
    have hidx : cfg.EffectiveBurst.toNat = (ts.length - 1) + 1 := by rw [hlen]; omega
    rw [hidx, List.getD_cons_succ]
    exact (hb.2 hts_pos).2

/-- C3 witness: the rule `{requests = 2, per = 1s, burst = 2}` with three
simultaneous calls of a fresh client — the first two are permitted and the
third is denied with a positive advised wait. -/
theorem burst_exhaustion_witness :
    (runCalls ⟨[⟨"w", 2, 1000000000, 2, none⟩], [], [], 5⟩ "/x" "k"
        [0, 0, 0]).1.getD 0 (false, 0) = (true, 0) ∧
    (runCalls ⟨[⟨"w", 2, 1000000000, 2, none⟩], [], [], 5⟩ "/x" "k"
        [0, 0, 0]).1.getD 1 (false, 0) = (true, 0) ∧
    ((runCalls ⟨[⟨"w", 2, 1000000000, 2, none⟩], [], [], 5⟩ "/x" "k"
        [0, 0, 0]).1.getD 2 (true, 0)).1 = false ∧
    0 < ((runCalls ⟨[⟨"w", 2, 1000000000, 2, none⟩], [], [], 5⟩ "/x" "k"
        [0, 0, 0]).1.getD 2 (true, 0)).2 := by
  have hB : (⟨"w", 2, 1000000000, 2, none⟩ : RateLimitConfig).EffectiveBurst.toNat = 2 := by
    decide
  have h := burst_exhaustion ⟨"w", 2, 1000000000, 2, none⟩ "k" "/x" 5 0 [0, 0]
    rfl (by decide)
    (by norm_num [RateLimitConfig.Rate, nsPerSecond])
    (by decide) (by simp [List.chain'_cons]) (by rw [hB]; rfl)
    (by
      intro t ht
      have ht0 : t = 0 := by
        rcases List.mem_cons.mp ht with h0 | h1
        · exact h0
        · simpa using h1
      subst ht0
      norm_num [RateLimitConfig.Rate, nsPerSecond])
  rw [hB] at h
  exact ⟨h.1 0 (by omega), h.1 1 (by omega), h.2.1, h.2.2⟩

lemma arenaGet_eq_getElem (l : List Limiter) (i : Nat) (h : i < l.length) :
    arenaGet l i = l[i] := by
  simp [arenaGet, List.getD_eq_getElem?_getD, List.getElem?_eq_getElem h]

lemma arenaGet_set_self (l : List Limiter) (i : Nat) (a : Limiter)
    (h : i < l.length) : arenaGet (l.set i a) i = a := by
  rw [arenaGet, List.getD_eq_getElem?_getD, List.getElem?_set_self]
  · simp [h]
  · exact h

lemma arenaGet_set_ne (l : List Limiter) (i j : Nat) (a : Limiter)
    (h : i ≠ j) : arenaGet (l.set i a) j = arenaGet l j := by
  rw [arenaGet, List.getD_eq_getElem?_getD, List.getElem?_set_ne h, arenaGet,
    List.getD_eq_getElem?_getD]

lemma arenaGet_append_lt (l l' : List Limiter) (i : Nat) (h : i < l.length) :
    arenaGet (l ++ l') i = arenaGet l i := by
  rw [arenaGet, List.getD_eq_getElem?_getD, List.getElem?_append, if_pos h,
    arenaGet, List.getD_eq_getElem?_getD]

lemma limiter_ext (a b : Limiter) (h1 : a.limit = b.limit) (h2 : a.burst = b.burst)
    (h3 : a.tokens = b.tokens) (h4 : a.last = b.last) : a = b := by
  cases a; cases b
  simp only at h1 h2 h3 h4
  simp [h1, h2, h3, h4]

lemma okCount_cons (r : Reservation) (rs : List Reservation) (i : Nat) :
    okCount (r :: rs) i =
      (if r.ok = true ∧ r.idx = i then 1 else 0) + okCount rs i := by
  rw [okCount, okCount, List.filter_cons]
  by_cases h : r.ok = true ∧ r.idx = i
  · rw [if_pos (by simp [h.1, h.2]), if_pos h]
    simp [Nat.add_comm]
  · rw [if_neg (by simpa using h), if_neg h]
    simp

lemma okCount_append_one (rs : List Reservation) (r : Reservation) (i : Nat) :
    okCount (rs ++ [r]) i =
      okCount rs i + (if r.ok = true ∧ r.idx = i then 1 else 0) := by
  rw [okCount, okCount, List.filter_append, List.length_append, List.filter_cons]
  by_cases h : r.ok = true ∧ r.idx = i
  · rw [if_pos (by simp [h.1, h.2]), if_pos h]
    simp
  · rw [if_neg (by simpa using h), if_neg h]
    simp

lemma okCount_zero_of_bounds (rs : List Reservation) (n : Nat)
    (h : ∀ r ∈ rs, r.idx < n) : okCount rs n = 0 := by
  rw [okCount, List.length_eq_zero]
  rw [List.filter_eq_nil]
  intro r hr
  have := h r hr
  simp only [Bool.and_eq_true, decide_eq_true_eq, not_and]
  intro _ hcon
  omega

lemma okCount_pos_of_mem (rs : List Reservation) (r : Reservation)
    (hr : r ∈ rs) (hok : r.ok = true) : 1 ≤ okCount rs r.idx := by
  rw [okCount]
  have hmem : r ∈ rs.filter (fun s => s.ok && decide (s.idx = r.idx)) := by
    rw [List.mem_filter]
    exact ⟨hr, by simp [hok]⟩
  have := List.length_pos.mpr (List.ne_nil_of_mem hmem)
  omega

/-- Core arithmetic of the rollback refinement: one reservation taken from
the collect-side bucket preserves the simulation against the observed
bucket, the debt growing by one on success and the states untouched on a
not-OK reservation. -/
lemma reserve_observe_sim (lc lo : Limiter) (now : Int) (k : Nat)
    (hsim : bucketSim now k lc lo) :
    ((lc.reserve now).1.1 = true →
      bucketSim now (k + 1) (lc.reserve now).2 (lo.observe now)) ∧
    ((lc.reserve now).1.1 = false →
      (lc.reserve now).2 = lc ∧ lo.observe now = lo) := by
  obtain ⟨hlim, hbst, hlast, htokb, hbpos, htok, hlnow⟩ := hsim
  by_cases hz : lo.limit = 0
  · have hzc : lc.limit = 0 := by rw [hlim, hz]
    have hobs : lo.observe now = lo := by simp [Limiter.observe, hz]
    by_cases hav : 1 ≤ lc.tokens
    · have hres : lc.reserve now = ((true, 0), { lc with tokens := lc.tokens - 1 }) := by
        simp [Limiter.reserve, hzc, hav]
      rw [hres, hobs]
      refine ⟨fun _ => ⟨hlim, hbst, hlast, htokb, hbpos, ?_, fun _ hcon => absurd hz hcon⟩,
        fun hcon => by simp at hcon⟩
      simp only [htok]
      push_cast
      ring
    · have hres : lc.reserve now = ((false, 0), lc) := reserve_denied_zero lc now hzc hav
      rw [hres, hobs]
      exact ⟨fun hcon => by simp at hcon, fun _ => ⟨rfl, rfl⟩⟩
  · have hzc : ¬ (lc.limit = 0) := by rw [hlim]; exact hz
    have hbc : 1 ≤ lc.burst := by rw [hbst]; exact hbpos
    have hadv : lc.advanceTokens now = lo.advanceTokens now - (k : ℚ) := by
      rcases Nat.eq_zero_or_pos k with hk | hk
      · subst hk
        rw [Limiter.advanceTokens, Limiter.advanceTokens, hlim, hbst, hlast, htok]
        push_cast
        ring_nf
      · have hlnow' : lo.last = now := hlnow (by omega) hz
        have hlcnow : lc.last = now := by rw [hlast, hlnow']
        have hmaxo : max 0 (now - lo.last) = 0 := by omega
        have hmaxc : max 0 (now - lc.last) = 0 := by omega
        rw [Limiter.advanceTokens, Limiter.advanceTokens, hmaxo, hmaxc]
        have hco : lo.tokens + lo.limit * ((0 : Int) : ℚ) / (nsPerSecond : ℚ) = lo.tokens := by
          push_cast; ring
        have hcc : lc.tokens + lc.limit * ((0 : Int) : ℚ) / (nsPerSecond : ℚ) = lc.tokens := by
          push_cast; ring
        rw [hco, hcc, hbst, htok]
        have hkQ : (1 : ℚ) ≤ (k : ℚ) := by exact_mod_cast hk
        rw [min_eq_right htokb, min_eq_right (by linarith)]
    have hreso : (lc.reserve now).1.1 = true ∧
        (lc.reserve now).2 = ⟨lc.limit, lc.burst, lc.advanceTokens now - 1, now⟩ := by
      rw [Limiter.reserve]
      rw [if_neg hzc]
      constructor
      · simp [hbc]
      · simp [hbc]
    have hobs : lo.observe now =
        ⟨lo.limit, lo.burst, lo.advanceTokens now, now⟩ := by
      simp [Limiter.observe, hz]
    refine ⟨fun _ => ?_, fun hcon => ?_⟩
    · rw [hreso.2, hobs]
      refine ⟨hlim, hbst, rfl, ?_, hbpos, ?_, fun _ _ => rfl⟩
      · simp only [Limiter.advanceTokens]
        exact min_le_left _ _
      · rw [hadv]
        push_cast
        ring
    · rw [hreso.1] at hcon
      simp at hcon

lemma rateLimiter_ext (x y : RateLimiter) (h1 : x.configs = y.configs)
    (h2 : x.cache = y.cache) (h3 : x.arena = y.arena) (h4 : x.maxSize = y.maxSize) :
    x = y := by
  cases x; cases y
  simp only at h1 h2 h3 h4
  simp [h1, h2, h3, h4]

lemma lruGetEntry_some (cache : List (limiterKey × Nat)) (k : limiterKey) (idx : Nat)
    (h : lruGetEntry cache k = some idx) : ∃ e ∈ cache, e.2 = idx := by
  rw [lruGetEntry] at h
  rcases hf : cache.find? (fun e => decide (e.1 = k)) with _ | e
  · rw [hf] at h; simp at h
  · rw [hf] at h
    simp at h
    exact ⟨e, List.mem_of_find?_eq_some hf, h⟩

lemma scan_true_all_ok (rs : List Reservation) :
    ∀ b w, (scanReservations rs b w).1 = true → ∀ r ∈ rs, r.ok = true := by
  induction rs with
  | nil => intro b w _ r hr; exact absurd hr (List.not_mem_nil r)
  | cons r rest ih =>
      intro b w htrue s hs
      by_cases hok : r.ok = true
      · rcases List.mem_cons.mp hs with h0 | h1
        · exact h0 ▸ hok
        · simp only [scanReservations, hok] at htrue
          by_cases hd : 0 < r.delayNs
          · simp only [hd, if_true, if_false] at htrue
            exact ih false (max w r.delayNs) htrue s h1
          · simp only [hd, if_false] at htrue
            exact ih b w htrue s h1
      · have hf : r.ok = false := by
          cases hcase : r.ok
          · rfl
          · exact absurd hcase hok
        simp [scanReservations, hf] at htrue

/-- Cancelling every collected reservation in order pays back all
provisional debits exactly, landing on the no-debit arena. -/
lemma cancelAll_restores (now : Int) :
    ∀ (rs : List Reservation) (ac ao : List Limiter),
      ac.length = ao.length →
      (∀ r ∈ rs, r.idx < ac.length) →
      (∀ i, i < ac.length →
          bucketSim now (okCount rs i) (arenaGet ac i) (arenaGet ao i)) →
      cancelAll ac rs = ao := by
  intro rs
  induction rs with
  | nil =>
      intro ac ao hlen _ hsim
      rw [cancelAll]
      refine List.ext_getElem hlen ?_
      intro i hi hj
      obtain ⟨h1, h2, h3, _, _, h6, _⟩ := hsim i hi
      rw [← arenaGet_eq_getElem ac i hi, ← arenaGet_eq_getElem ao i hj]
      refine limiter_ext _ _ h1 h2 ?_ h3
      rw [h6]
      simp [okCount]
  | cons r rest ih =>
      intro ac ao hlen hbound hsim
      by_cases hok : r.ok = true
      · have hixa : r.idx < ac.length := hbound r (by simp)
        rw [cancelAll, if_pos hok]
        apply ih (ac.set r.idx ((arenaGet ac r.idx).cancelReservation)) ao
        · rw [List.length_set]; exact hlen
        · intro s hs
          rw [List.length_set]
          exact hbound s (by simp [hs])
        · intro i hi
          rw [List.length_set] at hi
          by_cases hii : r.idx = i
          · subst hii
            rw [arenaGet_set_self _ _ _ hixa]
            obtain ⟨h1, h2, h3, h4, h5, h6, h7⟩ := hsim r.idx hi
            have hcnt : okCount (r :: rest) r.idx = okCount rest r.idx + 1 := by
              rw [okCount_cons, if_pos ⟨hok, rfl⟩]
              omega
            rw [hcnt] at h6 h7
            refine ⟨h1, h2, h3, h4, h5, ?_, fun hk => h7 (by omega)⟩
            have htk : (arenaGet ac r.idx).tokens + 1 =
                (arenaGet ao r.idx).tokens - (okCount rest r.idx : ℚ) := by
              rw [h6]
              push_cast
              ring
            have hle : (arenaGet ao r.idx).tokens - (okCount rest r.idx : ℚ) ≤
                ((arenaGet ac r.idx).burst : ℚ) := by
              rw [h2]
              have hknn : (0 : ℚ) ≤ (okCount rest r.idx : ℚ) := by positivity
              linarith
            show min (((arenaGet ac r.idx).burst : ℚ)) ((arenaGet ac r.idx).tokens + 1) = _
            rw [htk, min_eq_right hle]
          · rw [arenaGet_set_ne _ _ _ _ hii]
            have hcnt : okCount (r :: rest) i = okCount rest i := by
              rw [okCount_cons, if_neg (by simp [hii])]
              omega
            rw [← hcnt]
            exact hsim i hi
      · rw [cancelAll, if_neg hok]
        apply ih ac ao hlen (fun s hs => hbound s (by simp [hs]))
        intro i hi
        have hcnt : okCount (r :: rest) i = okCount rest i := by
          rw [okCount_cons, if_neg (by simp [hok])]
          omega
        rw [← hcnt]
        exact hsim i hi

lemma arenaGet_append_length (l : List Limiter) (y : Limiter) :
    arenaGet (l ++ [y]) l.length = y :=
  getD_append_length l y defaultLimiter

/-- One config step of the collect phase against one step of the no-debit
run: caches evolve identically and the arenas stay in simulation, the new
reservation (if any) debiting its own bucket. -/
lemma step_sim (key path : String) (now : Int) (cfg : RateLimitConfig)
    (rs : List Reservation) (sc so : RateLimiter)
    (hcfg : 1 ≤ cfg.EffectiveBurst)
    (hcache : sc.cache = so.cache)
    (hms : sc.maxSize = so.maxSize)
    (hcwf : ∀ e ∈ sc.cache, e.2 < sc.arena.length)
    (hrb : ∀ r ∈ rs, r.idx < sc.arena.length)
    (hsim : arenaSim now rs sc.arena so.arena) :
    (reserveStep key path now (rs, sc) cfg).2.cache =
        (observeStep key path now so cfg).cache ∧
    (reserveStep key path now (rs, sc) cfg).2.maxSize =
        (observeStep key path now so cfg).maxSize ∧
    (reserveStep key path now (rs, sc) cfg).2.configs = sc.configs ∧
    (observeStep key path now so cfg).configs = so.configs ∧
    (∀ e ∈ (reserveStep key path now (rs, sc) cfg).2.cache,
        e.2 < (reserveStep key path now (rs, sc) cfg).2.arena.length) ∧
    (∀ r ∈ (reserveStep key path now (rs, sc) cfg).1,
        r.idx < (reserveStep key path now (rs, sc) cfg).2.arena.length) ∧
    arenaSim now (reserveStep key path now (rs, sc) cfg).1
      (reserveStep key path now (rs, sc) cfg).2.arena
      (observeStep key path now so cfg).arena := by
  obtain ⟨hlen, hsimi⟩ := hsim
  cases hm : cfg.Matches path with
  | false =>
      simp only [reserveStep, observeStep, hm, Bool.false_eq_true, if_false]
      exact ⟨hcache, hms, trivial, trivial, hcwf, hrb, hlen, hsimi⟩
  | true =>
      rcases hcc : lruGetEntry sc.cache ⟨key, cfg.PathRegexp⟩ with _ | idx
      · -- cache miss: both runs append a fresh full bucket
        have hcco : lruGetEntry so.cache ⟨key, cfg.PathRegexp⟩ = none := by
          rw [← hcache]; exact hcc
        have hsteps : reserveStep key path now (rs, sc) cfg =
            (rs ++ [⟨((newLimiter cfg now).reserve now).1.1,
                     ((newLimiter cfg now).reserve now).1.2, sc.arena.length⟩],
             { sc with
                 cache := (lruPut sc.cache ⟨key, cfg.PathRegexp⟩
                   sc.arena.length sc.maxSize).2,
                 arena := (sc.arena ++ [newLimiter cfg now]).set sc.arena.length
                   ((newLimiter cfg now).reserve now).2 }) := by
          simp only [reserveStep, hm, if_true]
          rw [getOrCreate_miss sc ⟨key, cfg.PathRegexp⟩ cfg now hcc]
          rw [show arenaGet ({ sc with
              cache := (lruPut sc.cache ⟨key, cfg.PathRegexp⟩
                sc.arena.length sc.maxSize).2,
              arena := sc.arena ++ [newLimiter cfg now] } : RateLimiter).arena
              sc.arena.length = newLimiter cfg now from
            arenaGet_append_length sc.arena (newLimiter cfg now)]
        have hstepo : observeStep key path now so cfg =
            { so with
                cache := (lruPut so.cache ⟨key, cfg.PathRegexp⟩
                  so.arena.length so.maxSize).2,
                arena := (so.arena ++ [newLimiter cfg now]).set so.arena.length
                  ((newLimiter cfg now).observe now) } := by
          simp only [observeStep, hm, if_true]
          rw [getOrCreate_miss so ⟨key, cfg.PathRegexp⟩ cfg now hcco]
          rw [show arenaGet ({ so with
              cache := (lruPut so.cache ⟨key, cfg.PathRegexp⟩
                so.arena.length so.maxSize).2,
              arena := so.arena ++ [newLimiter cfg now] } : RateLimiter).arena
              so.arena.length = newLimiter cfg now from
            arenaGet_append_length so.arena (newLimiter cfg now)]
        have hc1 : (reserveStep key path now (rs, sc) cfg).1 =
            rs ++ [⟨((newLimiter cfg now).reserve now).1.1,
                    ((newLimiter cfg now).reserve now).1.2, sc.arena.length⟩] := by
          rw [hsteps]
        have hc2 : (reserveStep key path now (rs, sc) cfg).2.arena =
            (sc.arena ++ [newLimiter cfg now]).set sc.arena.length
              ((newLimiter cfg now).reserve now).2 := by
          rw [hsteps]
        have hc3 : (reserveStep key path now (rs, sc) cfg).2.cache =
            (lruPut sc.cache ⟨key, cfg.PathRegexp⟩ sc.arena.length sc.maxSize).2 := by
          rw [hsteps]
        have hc4 : (reserveStep key path now (rs, sc) cfg).2.maxSize = sc.maxSize := by
          rw [hsteps]
        have hc5 : (reserveStep key path now (rs, sc) cfg).2.configs = sc.configs := by
          rw [hsteps]
        have ho2 : (observeStep key path now so cfg).arena =
            (so.arena ++ [newLimiter cfg now]).set so.arena.length
              ((newLimiter cfg now).observe now) := by
          rw [hstepo]
        have ho3 : (observeStep key path now so cfg).cache =
            (lruPut so.cache ⟨key, cfg.PathRegexp⟩ so.arena.length so.maxSize).2 := by
          rw [hstepo]
        have ho4 : (observeStep key path now so cfg).maxSize = so.maxSize := by
          rw [hstepo]
        have ho5 : (observeStep key path now so cfg).configs = so.configs := by
          rw [hstepo]
        have hx : bucketSim now 0 (newLimiter cfg now) (newLimiter cfg now) := by
          unfold bucketSim
          refine ⟨rfl, rfl, rfl, le_refl _, ?_, ?_, ?_⟩
          · simp only [newLimiter]
            exact hcfg
          · push_cast
            ring
          · intro h
            exact absurd rfl h
        have hres := reserve_observe_sim (newLimiter cfg now) (newLimiter cfg now)
          now 0 hx
        have hcnt0 : okCount rs sc.arena.length = 0 := okCount_zero_of_bounds rs _ hrb
        have hlenc : ((sc.arena ++ [newLimiter cfg now]).set sc.arena.length
            ((newLimiter cfg now).reserve now).2).length = sc.arena.length + 1 := by
          rw [List.length_set, List.length_append]
          rfl
        have hleno : ((so.arena ++ [newLimiter cfg now]).set so.arena.length
            ((newLimiter cfg now).observe now)).length = so.arena.length + 1 := by
          rw [List.length_set, List.length_append]
          rfl
        refine ⟨by rw [hc3, ho3, hcache, hms, hlen], by rw [hc4, ho4, hms],
          hc5, ho5, ?_, ?_, ?_⟩
        · intro e he
          rw [hc3] at he
          rw [hc2, hlenc]
          simp only [lruPut] at he
          have he2 := List.take_subset _ _ he
          rcases List.mem_cons.mp he2 with h0 | h1
          · rw [h0]
            omega
          · have := hcwf e (List.mem_of_mem_filter h1)
            omega
        · intro r hr
          rw [hc1] at hr
          rw [hc2, hlenc]
          rcases List.mem_append.mp hr with h0 | h1
          · have := hrb r h0
            omega
          · simp at h1
            simp only [h1]
            omega
        · rw [hc1, hc2, ho2]
          refine ⟨by rw [hlenc, hleno, hlen], ?_⟩
          intro i hi
          rw [hlenc] at hi
          by_cases hii : i = sc.arena.length
          · subst hii
            have hgc : arenaGet ((sc.arena ++ [newLimiter cfg now]).set sc.arena.length
                ((newLimiter cfg now).reserve now).2) sc.arena.length =
                ((newLimiter cfg now).reserve now).2 := by
              apply arenaGet_set_self
              rw [List.length_append]
              simp
            have hgo : arenaGet ((so.arena ++ [newLimiter cfg now]).set so.arena.length
                ((newLimiter cfg now).observe now)) sc.arena.length =
                ((newLimiter cfg now).observe now) := by
              rw [hlen]
              apply arenaGet_set_self
              rw [List.length_append]
              simp
            rw [hgc, hgo]
            cases hok : ((newLimiter cfg now).reserve now).1.1 with
            | true =>
                have hb := hres.1 hok
                have hcnt : okCount (rs ++ [⟨true,
                    ((newLimiter cfg now).reserve now).1.2, sc.arena.length⟩])
                    sc.arena.length = 1 := by
                  rw [okCount_append_one, hcnt0, if_pos ⟨rfl, rfl⟩]
                rw [hcnt]
                exact hb
            | false =>
                have hb := hres.2 hok
                have hcnt : okCount (rs ++ [⟨false,
                    ((newLimiter cfg now).reserve now).1.2, sc.arena.length⟩])
                    sc.arena.length = 0 := by
                  rw [okCount_append_one, hcnt0, if_neg (by simp)]
                rw [hcnt, hb.1, hb.2]
                exact hx
          · have hilt : i < sc.arena.length := by omega
            have hgc : arenaGet ((sc.arena ++ [newLimiter cfg now]).set sc.arena.length
                ((newLimiter cfg now).reserve now).2) i = arenaGet sc.arena i := by
              rw [arenaGet_set_ne _ _ _ _ (by omega), arenaGet_append_lt _ _ _ hilt]
            have hgo : arenaGet ((so.arena ++ [newLimiter cfg now]).set so.arena.length
                ((newLimiter cfg now).observe now)) i = arenaGet so.arena i := by
              rw [arenaGet_set_ne _ _ _ _ (by omega), arenaGet_append_lt _ _ _ (by omega)]
            have hcnt : okCount (rs ++ [⟨((newLimiter cfg now).reserve now).1.1,
                ((newLimiter cfg now).reserve now).1.2, sc.arena.length⟩]) i =
                okCount rs i := by
              rw [okCount_append_one, if_neg (by simp; intro _ hcon; omega)]
              omega
            rw [hgc, hgo, hcnt]
            exact hsimi i hilt
      · -- cache hit: both runs touch the resident bucket
        have hcco : lruGetEntry so.cache ⟨key, cfg.PathRegexp⟩ = some idx := by
          rw [← hcache]; exact hcc
        have hidx : idx < sc.arena.length := by
          obtain ⟨e, he, he2⟩ := lruGetEntry_some _ _ _ hcc
          rw [← he2]
          exact hcwf e he
        have hsteps : reserveStep key path now (rs, sc) cfg =
            (rs ++ [⟨((arenaGet sc.arena idx).reserve now).1.1,
                     ((arenaGet sc.arena idx).reserve now).1.2, idx⟩],
             { sc with
                 cache := (⟨key, cfg.PathRegexp⟩, idx) ::
                   removeKey sc.cache ⟨key, cfg.PathRegexp⟩,
                 arena := sc.arena.set idx ((arenaGet sc.arena idx).reserve now).2 }) := by
          simp only [reserveStep, hm, if_true]
          rw [getOrCreate_hit sc ⟨key, cfg.PathRegexp⟩ cfg now idx hcc]
        have hstepo : observeStep key path now so cfg =
            { so with
                cache := (⟨key, cfg.PathRegexp⟩, idx) ::
                  removeKey so.cache ⟨key, cfg.PathRegexp⟩,
                arena := so.arena.set idx ((arenaGet so.arena idx).observe now) } := by
          simp only [observeStep, hm, if_true]
          rw [getOrCreate_hit so ⟨key, cfg.PathRegexp⟩ cfg now idx hcco]
        have hc1 : (reserveStep key path now (rs, sc) cfg).1 =
            rs ++ [⟨((arenaGet sc.arena idx).reserve now).1.1,
                    ((arenaGet sc.arena idx).reserve now).1.2, idx⟩] := by
          rw [hsteps]
        have hc2 : (reserveStep key path now (rs, sc) cfg).2.arena =
            sc.arena.set idx ((arenaGet sc.arena idx).reserve now).2 := by
          rw [hsteps]
        have hc3 : (reserveStep key path now (rs, sc) cfg).2.cache =
            (⟨key, cfg.PathRegexp⟩, idx) :: removeKey sc.cache ⟨key, cfg.PathRegexp⟩ := by
          rw [hsteps]
        have hc4 : (reserveStep key path now (rs, sc) cfg).2.maxSize = sc.maxSize := by
          rw [hsteps]
        have hc5 : (reserveStep key path now (rs, sc) cfg).2.configs = sc.configs := by
          rw [hsteps]
        have ho2 : (observeStep key path now so cfg).arena =
            so.arena.set idx ((arenaGet so.arena idx).observe now) := by
          rw [hstepo]
        have ho3 : (observeStep key path now so cfg).cache =
            (⟨key, cfg.PathRegexp⟩, idx) :: removeKey so.cache ⟨key, cfg.PathRegexp⟩ := by
          rw [hstepo]
        have ho4 : (observeStep key path now so cfg).maxSize = so.maxSize := by
          rw [hstepo]
        have ho5 : (observeStep key path now so cfg).configs = so.configs := by
          rw [hstepo]
        have hres := reserve_observe_sim (arenaGet sc.arena idx) (arenaGet so.arena idx)
          now (okCount rs idx) (hsimi idx hidx)
        refine ⟨by rw [hc3, ho3, hcache], by rw [hc4, ho4, hms], hc5, ho5, ?_, ?_, ?_⟩
        · intro e he
          rw [hc3] at he
          rw [hc2, List.length_set]
          rcases List.mem_cons.mp he with h0 | h1
          · rw [h0]
            exact hidx
          · exact hcwf e (List.mem_of_mem_filter h1)
        · intro r hr
          rw [hc1] at hr
          rw [hc2, List.length_set]
          rcases List.mem_append.mp hr with h0 | h1
          · exact hrb r h0
          · simp at h1
            simp only [h1]
            exact hidx
        · rw [hc1, hc2, ho2]
          refine ⟨by rw [List.length_set, List.length_set, hlen], ?_⟩
          intro i hi
          rw [List.length_set] at hi
          by_cases hii : idx = i
          · subst hii
            rw [arenaGet_set_self _ _ _ hidx, arenaGet_set_self _ _ _ (by omega)]
            cases hok : ((arenaGet sc.arena idx).reserve now).1.1 with
            | true =>
                have hb := hres.1 hok
                have hcnt : okCount (rs ++ [⟨true,
                    ((arenaGet sc.arena idx).reserve now).1.2, idx⟩]) idx =
                    okCount rs idx + 1 := by
                  rw [okCount_append_one, if_pos ⟨rfl, rfl⟩]
                rw [hcnt]
                exact hb
            | false =>
                have hb := hres.2 hok
                have hcnt : okCount (rs ++ [⟨false,
                    ((arenaGet sc.arena idx).reserve now).1.2, idx⟩]) idx =
                    okCount rs idx := by
                  rw [okCount_append_one, if_neg (by simp)]
                  omega
                rw [hcnt, hb.1, hb.2]
                exact hsimi idx hidx
          · rw [arenaGet_set_ne _ _ _ _ hii, arenaGet_set_ne _ _ _ _ hii]
            have hcnt : okCount (rs ++ [⟨((arenaGet sc.arena idx).reserve now).1.1,
                ((arenaGet sc.arena idx).reserve now).1.2, idx⟩]) i = okCount rs i := by
              rw [okCount_append_one, if_neg (by simp; intro _ hcon; exact hii hcon)]
              omega
            rw [hcnt]
            exact hsimi i hi

/-- Folding the collect phase over a config list against the no-debit fold:
caches and sizes evolve identically, the configured rules are untouched,
every reservation's index is in range, and the two arenas stay in
simulation, each bucket owing exactly its OK-reservation count. -/
lemma collect_observe_sim (key path : String) (now : Int)
    (cfgs : List RateLimitConfig) :
    ∀ (rs : List Reservation) (sc so : RateLimiter),
      (∀ cfg ∈ cfgs, 1 ≤ cfg.EffectiveBurst) →
      sc.cache = so.cache →
      sc.maxSize = so.maxSize →
      (∀ e ∈ sc.cache, e.2 < sc.arena.length) →
      (∀ r ∈ rs, r.idx < sc.arena.length) →
      arenaSim now rs sc.arena so.arena →
      (cfgs.foldl (reserveStep key path now) (rs, sc)).2.cache =
          (cfgs.foldl (observeStep key path now) so).cache ∧
      (cfgs.foldl (reserveStep key path now) (rs, sc)).2.maxSize =
          (cfgs.foldl (observeStep key path now) so).maxSize ∧
      (cfgs.foldl (reserveStep key path now) (rs, sc)).2.configs = sc.configs ∧
      (cfgs.foldl (observeStep key path now) so).configs = so.configs ∧
      (∀ r ∈ (cfgs.foldl (reserveStep key path now) (rs, sc)).1,
          r.idx < (cfgs.foldl (reserveStep key path now) (rs, sc)).2.arena.length) ∧
      arenaSim now (cfgs.foldl (reserveStep key path now) (rs, sc)).1
        (cfgs.foldl (reserveStep key path now) (rs, sc)).2.arena
        (cfgs.foldl (observeStep key path now) so).arena := by
  induction cfgs with
  | nil =>
      intro rs sc so _ hcache hms _ hrb hsim
      exact ⟨hcache, hms, rfl, rfl, hrb, hsim⟩
  | cons cfg rest ih =>
      intro rs sc so hcfg hcache hms hcwf hrb hsim
      obtain ⟨h1, h2, h3, h4, h5, h6, h7⟩ :=
        step_sim key path now cfg rs sc so (hcfg cfg (by simp)) hcache hms hcwf
          hrb hsim
      obtain ⟨g1, g2, g3, g4, g6, g7⟩ :=
        ih (reserveStep key path now (rs, sc) cfg).1
          (reserveStep key path now (rs, sc) cfg).2
          (observeStep key path now so cfg)
          (fun c hc => hcfg c (by simp [hc]))
          h1 h2 h5 h6 h7
      rw [List.foldl_cons, List.foldl_cons]
      exact ⟨g1, g2, g3.trans h3, g4.trans h4, g6, g7⟩

/-- C1: on a well-formed state, a denied Allow call cancels every provisional
token debit, leaving the limiter in exactly the state the call would have
produced had it reserved nothing (the no-debit run); a permitted call keeps
the collected state, and every collected reservation is OK with its rule's
bucket left owing exactly its (positive) OK-reservation count below the
no-debit token level — a debit stays committed iff the call is permitted. -/
theorem allow_rollback (rl : RateLimiter) (path key : String) (now : Int)
    (hwf : rl.WF) :
    ((rl.Allow path key now).1.1 = false →
      (rl.Allow path key now).2 = observeRun rl path key now) ∧
    ((rl.Allow path key now).1.1 = true →
      (rl.Allow path key now).2 = (collectReservations rl path key now).2 ∧
      ∀ r ∈ (collectReservations rl path key now).1,
        r.ok = true ∧
        1 ≤ okCount (collectReservations rl path key now).1 r.idx ∧
        (arenaGet (rl.Allow path key now).2.arena r.idx).tokens =
          (arenaGet (observeRun rl path key now).arena r.idx).tokens
            - (okCount (collectReservations rl path key now).1 r.idx : ℚ)) := by
  obtain ⟨hwa, hwc, hwcfg⟩ := hwf
  have hsim0 : arenaSim now [] rl.arena rl.arena := by
    refine ⟨rfl, ?_⟩
    intro i hi
    have hmem : arenaGet rl.arena i ∈ rl.arena := by
      rw [arenaGet_eq_getElem rl.arena i hi]
      exact List.getElem_mem hi
    obtain ⟨ht, hb⟩ := hwa _ hmem
    refine ⟨rfl, rfl, rfl, ht, hb, ?_, ?_⟩
    · simp [okCount]
    · intro hk
      exact absurd rfl hk
  obtain ⟨f1, f2, f3, f4, f6, f7⟩ :=
    collect_observe_sim key path now rl.configs [] rl rl hwcfg rfl rfl hwc
      (fun r hr => absurd hr (List.not_mem_nil r)) hsim0
  have hf1 : (collectReservations rl path key now).2.cache =
      (observeRun rl path key now).cache := f1
  have hf2 : (collectReservations rl path key now).2.maxSize =
      (observeRun rl path key now).maxSize := f2
  have hf3 : (collectReservations rl path key now).2.configs = rl.configs := f3
  have hf4 : (observeRun rl path key now).configs = rl.configs := f4
  have hf6 : ∀ r ∈ (collectReservations rl path key now).1,
      r.idx < (collectReservations rl path key now).2.arena.length := f6
  have hf7 : arenaSim now (collectReservations rl path key now).1
      (collectReservations rl path key now).2.arena
      (observeRun rl path key now).arena := f7
  constructor
  · intro hden
    by_cases h0 : (collectReservations rl path key now).1.length = 0
    · exfalso
      have htr : (rl.Allow path key now).1.1 = true := by
        simp only [RateLimiter.Allow]
        rw [if_pos h0]
      rw [htr] at hden
      simp at hden
    · by_cases hs : (scanReservations (collectReservations rl path key now).1
          true 0).1 = true
      · exfalso
        have htr : (rl.Allow path key now).1.1 = true := by
          simp only [RateLimiter.Allow]
          rw [if_neg h0, if_pos hs]
        rw [htr] at hden
        simp at hden
      · have hallow2 : (rl.Allow path key now).2 =
            { (collectReservations rl path key now).2 with
                arena := cancelAll (collectReservations rl path key now).2.arena
                  (collectReservations rl path key now).1 } := by
          simp only [RateLimiter.Allow]
          rw [if_neg h0, if_neg hs]
        rw [hallow2]
        refine rateLimiter_ext _ _ (hf3.trans hf4.symm) hf1 ?_ hf2
        exact cancelAll_restores now _ _ _ hf7.1 hf6 hf7.2
  · intro hper
    by_cases h0 : (collectReservations rl path key now).1.length = 0
    · have hnil : (collectReservations rl path key now).1 = [] :=
        List.length_eq_zero.mp h0
      have hallow2 : (rl.Allow path key now).2 =
          (collectReservations rl path key now).2 := by
        simp only [RateLimiter.Allow]
        rw [if_pos h0]
      refine ⟨hallow2, ?_⟩
      intro r hr
      rw [hnil] at hr
      exact absurd hr (List.not_mem_nil r)
    · by_cases hs : (scanReservations (collectReservations rl path key now).1
          true 0).1 = true
      · have hallow2 : (rl.Allow path key now).2 =
            (collectReservations rl path key now).2 := by
          simp only [RateLimiter.Allow]
          rw [if_neg h0, if_pos hs]
        refine ⟨hallow2, ?_⟩
        intro r hr
        have hok := scan_true_all_ok _ true 0 hs r hr
        obtain ⟨_, _, _, _, _, h6, _⟩ := hf7.2 r.idx (hf6 r hr)
        refine ⟨hok, okCount_pos_of_mem _ r hr hok, ?_⟩
        rw [hallow2]
        exact h6
      · exfalso
        have hfa : (rl.Allow path key now).1.1 = false := by
          simp only [RateLimiter.Allow]
          rw [if_neg h0, if_neg hs]
        rw [hper] at hfa
        simp at hfa

/-- Witness: in the drained two-rule fixture state the second call is
denied, and its final state coincides exactly with the state of the
no-debit run — the slow rule's provisional debit was rolled back. -/
theorem allow_rollback_witness :
    (c2State.Allow "/x" "k" 0).1.1 = false ∧
    (c2State.Allow "/x" "k" 0).2 = observeRun c2State "/x" "k" 0 := by
  have hden : (c2State.Allow "/x" "k" 0).1.1 = false := by
    rw [show (c2State.Allow "/x" "k" 0).1.1 =
        ((false, (nsPerSecond : ℚ)) : Bool × ℚ).1 from congrArg Prod.fst c2_allow_fst]
  have hwf : c2State.WF := by
    rw [c2State_eq]
    simp only [RateLimiter.WF]
    refine ⟨?_, ?_, ?_⟩
    · intro l hl
      simp only [List.mem_cons, List.not_mem_nil, or_false] at hl
      rcases hl with h | h <;> subst h <;> constructor <;> norm_num
    · intro e he
      simp only [List.mem_cons, List.not_mem_nil, or_false] at he
      rcases he with h | h <;> subst h <;> norm_num
    · intro cfg hc
      simp only [List.mem_cons, List.not_mem_nil, or_false] at hc
      rcases hc with h | h <;> subst h <;>
        norm_num [RateLimitConfig.EffectiveBurst, cfgSlow, cfgZero]
  exact ⟨hden, (allow_rollback c2State "/x" "k" 0 hwf).1 hden⟩

end Aperture
